import Mathlib

/-!
Verification of the `python-dabepg` library (DAB EPG XML serialization).

This file contains a shallow embedding, in Lean 4, of the parts of the
library that the specification's claims are about:

* the identifier types `ContentId` and `Bearer` (`src/dabepg/__init__.py`),
* the `Multimedia` constructor invariant,
* the `Location` constructor bearer normalization,
* the domain model `Time`/`RelativeTime`/`Location`/`Programme`/
  `ProgrammeEvent`/`Schedule`/`Epg`/`ServiceInfo`/`Ensemble`/`Service` and
  `Schedule.get_scope`,
* the XML marshalling engine (`src/dabepg/xml/__init__.py`), modelled twice:
  once as a pure element-tree builder (for claims about the emitted
  attributes and children), and once as an event-trace builder that records
  element creation, attribute setting, attachment and listener-callback
  events in execution order (for the claim about listener-callback timing).

Modelling conventions:

* the source is Python 2 (`distutils`, `basestring`), so `/` on ints is
  integer division and `map` over a list returns a list;
* `datetime` instants are modelled as `Int` (an abstract epoch-offset);
  `isoformat` is modelled as an injective rendering of that `Int` (no claim
  inspects the text of an isoformat string);
* `timedelta` values are modelled by `Timedelta` (whole days plus a
  seconds-of-day count; Python guarantees `0 ≤ seconds < 86400`);
* Python exceptions raised by a constructor are modelled by returning
  `Option`/`none`;
* Python's `re` is not modelled generically: the two patterns that occur
  (`CONTENTID_PATTERN`, `TRIGGER_PATTERN`) are compiled by hand into
  backtracking parsers that are faithful to `re.search` / `re.match`
  semantics for those specific patterns (leftmost match, greedy `{4,8}`
  with backtracking, no end anchor).
-/

namespace DabEpg

/-! ## Hexadecimal rendering and parsing helpers

These model Python's `'{:02x}'.format` / `'{:x}'.format` (lower-case hex,
zero-padded to a minimum width) and `int(s, 16)`.
-/

/-- Lower-case hexadecimal digit character for a value `n < 16`
(mirrors the digits produced by Python's `'%x'` formatting). -/
def hexChar : Nat → Char
  | 0 => '0' | 1 => '1' | 2 => '2' | 3 => '3'
  | 4 => '4' | 5 => '5' | 6 => '6' | 7 => '7'
  | 8 => '8' | 9 => '9' | 10 => 'a' | 11 => 'b'
  | 12 => 'c' | 13 => 'd' | 14 => 'e' | _ => 'f'

/-- Numeric value of a hexadecimal digit character, upper or lower case
(mirrors the digit handling of Python's `int(s, 16)`). -/
def hexVal : Char → Nat
  | '0' => 0 | '1' => 1 | '2' => 2 | '3' => 3
  | '4' => 4 | '5' => 5 | '6' => 6 | '7' => 7
  | '8' => 8 | '9' => 9
  | 'a' => 10 | 'b' => 11 | 'c' => 12 | 'd' => 13 | 'e' => 14 | 'f' => 15
  | 'A' => 10 | 'B' => 11 | 'C' => 12 | 'D' => 13 | 'E' => 14 | 'F' => 15
  | _ => 0

/-- Test for membership in the character class `[0-9a-fA-F]` used by both
`CONTENTID_PATTERN` and `TRIGGER_PATTERN`. -/
def isHexDigitB : Char → Bool
  | '0' => true | '1' => true | '2' => true | '3' => true
  | '4' => true | '5' => true | '6' => true | '7' => true
  | '8' => true | '9' => true
  | 'a' => true | 'b' => true | 'c' => true | 'd' => true
  | 'e' => true | 'f' => true
  | 'A' => true | 'B' => true | 'C' => true | 'D' => true
  | 'E' => true | 'F' => true
  | _ => false

/-- Fuel-driven worker producing the lower-case hexadecimal digits of `n`
(most significant digit first).  Fuel `n + 1` always suffices because the
recursive call divides by 16. -/
def toHexNatAux : Nat → Nat → List Char
  | 0, _ => []
  | fuel + 1, n =>
    if n < 16 then [hexChar n]
    else toHexNatAux fuel (n / 16) ++ [hexChar (n % 16)]

/-- Lower-case hexadecimal digits of `n`, most significant first, with no
leading zeros (`toHexNat 0 = ['0']`).  This models the digits produced by
Python's `'%x' % n` for `n ≥ 0`. -/
def toHexNat (n : Nat) : List Char :=
  toHexNatAux (n + 1) n

/-- Digits of `n` in lower-case hex, left-padded with `'0'` to a minimum
width `w` — Python's `'{:0{w}x}'.format(n)`.  If the natural representation
is longer than `w` it is kept in full (as in Python). -/
def formatHex (w n : Nat) : List Char :=
  List.replicate (w - (toHexNat n).length) '0' ++ toHexNat n

/-- Numeric value of a string of hexadecimal digit characters, most
significant first — Python's `int(s, 16)` restricted to the strings the
regular expression groups can produce. -/
def hexListVal (l : List Char) : Nat :=
  l.foldl (fun a c => a * 16 + hexVal c) 0

/-! ## ContentId (`src/dabepg/__init__.py`, lines 66-158)

`CONTENTID_PATTERN = '([0-9a-fA-F]{2})\.([0-9a-fA-F]{4})(\.([0-9a-fA-F]{4,8})\.([0-9a-fA-F]{1})){0,1}'`
-/

/-- DAB content identifier.  Fields are stored numerically (the Python
constructor converts hex strings with `int(x, 16)`); `sid`, `scids`, `xpad`
are optional. -/
structure ContentId where
  ecc : Nat
  eid : Nat
  sid : Option Nat
  scids : Option Nat
  xpad : Option Nat
deriving DecidableEq, Repr

/-- Characters of `ContentId.__str__`: `'{ecc:02x}.{eid:04x}'`, and when
both `sid` and `scids` are present also `'.{sid:04x}.{scids:x}'`. -/
def contentIdChars (c : ContentId) : List Char :=
  let base := formatHex 2 c.ecc ++ '.' :: formatHex 4 c.eid
  match c.sid, c.scids with
  | some sid, some scids => base ++ '.' :: formatHex 4 sid ++ '.' :: formatHex 1 scids
  | _, _ => base

/-- `ContentId.__str__`. -/
def ContentId.str (c : ContentId) : String :=
  String.mk (contentIdChars c)

/-- `ContentId.__eq__`: equality of canonical string forms. -/
def cidEq (a b : ContentId) : Bool :=
  a.str == b.str

/-- Take exactly `k` characters of the class `[0-9a-fA-F]` from the front of
`l`; fails if fewer than `k` such characters are available.  This is how a
regex atom `[0-9a-fA-F]{k}` consumes input. -/
def takeHex : Nat → List Char → Option (List Char × List Char)
  | 0, l => some ([], l)
  | _ + 1, [] => none
  | k + 1, c :: l =>
    if isHexDigitB c then (takeHex k l).map (fun p => (c :: p.1, p.2)) else none

/-- Try to match `([0-9a-fA-F]{k})\.([0-9a-fA-F]{1})` at the front of `rest`
for each `k` drawn from `ks` in order, returning the first success.  Listing
`ks = [8,7,6,5,4]` reproduces the greedy backtracking of `{4,8}`. -/
def tryLens : List Nat → List Char → Option (List Char × Char × List Char)
  | [], _ => none
  | k :: ks, rest =>
    match takeHex k rest with
    | some (sid, rest') =>
      match rest' with
      | '.' :: c :: rest'' =>
        if isHexDigitB c then some (sid, c, rest'') else tryLens ks rest
      | _ => tryLens ks rest
    | none => tryLens ks rest

/-- Match the optional group `(\.([0-9a-fA-F]{4,8})\.([0-9a-fA-F]{1})){0,1}`
at the front of `l`.  Greedy: longer `sid` widths are preferred; if the
whole group cannot match, it matches empty (result `none`). -/
def matchSidTail (l : List Char) : Option (List Char × Char × List Char) :=
  match l with
  | '.' :: rest => tryLens [8, 7, 6, 5, 4] rest
  | _ => none

/-- Match the full `CONTENTID_PATTERN` anchored at the front of `l`,
returning the matched groups `(ecc, eid, optional (sid, scids))`. -/
def contentIdMatchAt (l : List Char) : Option (List Char × List Char × Option (List Char × Char)) :=
  match takeHex 2 l with
  | none => none
  | some (ecc, rest) =>
    match rest with
    | '.' :: rest1 =>
      match takeHex 4 rest1 with
      | none => none
      | some (eid, rest2) =>
        match matchSidTail rest2 with
        | some (sid, scids, _) => some (ecc, eid, some (sid, scids))
        | none => some (ecc, eid, none)
    | _ => none

/-- `re.compile(CONTENTID_PATTERN).search`: try the pattern at each start
position from the left, returning the groups of the leftmost match. -/
def contentIdSearch : List Char → Option (List Char × List Char × Option (List Char × Char))
  | [] => none
  | c :: rest =>
    match contentIdMatchAt (c :: rest) with
    | some g => some g
    | none => contentIdSearch rest

/-- `ContentId.fromstring`: regex-search the string, fail (`ValueError`,
modelled as `none`) when there is no match, then build the `ContentId` from
the matched groups via `int(group, 16)`. -/
def ContentId.fromstring (s : String) : Option ContentId :=
  match contentIdSearch s.data with
  | none => none
  | some (ecc, eid, tail) =>
    some ⟨hexListVal ecc, hexListVal eid,
          tail.map (fun p => hexListVal p.1),
          tail.map (fun p => hexVal p.2), none⟩

/-! Claim-side definition for C3: the canonical string forms described by
the claim ("lower-case hex, each field zero-padded to its width: 2-digit
ecc, 4-digit eid, optional 4-or-8-digit sid together with 1-digit scids,
fields joined by `.`"). -/

/-- Canonical two-field ContentId string per the claim's description. -/
def canonicalShortStr (ecc eid : Nat) : String :=
  String.mk (formatHex 2 ecc ++ '.' :: formatHex 4 eid)

/-- Canonical four-field ContentId string per the claim's description,
with the sid field zero-padded to width `w` (4 or 8). -/
def canonicalLongStr (w ecc eid sid scids : Nat) : String :=
  String.mk (formatHex 2 ecc ++ '.' :: formatHex 4 eid ++
             '.' :: formatHex w sid ++ '.' :: formatHex 1 scids)

/-! ## Bearer (`src/dabepg/__init__.py`, lines 33-63)

`TRIGGER_PATTERN = '[0-9a-fA-F]{8}'`, checked with `re.match` (anchored at
the start of the string only — there is no end anchor, and `re.match` does
not require the pattern to consume the whole string).
-/

/-- DAB bearer: a `ContentId` plus an optional broadcast trigger string. -/
structure Bearer where
  id : ContentId
  trigger : Option String
deriving DecidableEq, Repr

/-- `re.match(TRIGGER_PATTERN, t) is not None`: the pattern
`[0-9a-fA-F]{8}` matches at the start of `t` iff `t` has at least 8
characters and its first 8 characters are hexadecimal digits. -/
def triggerMatch (t : String) : Bool :=
  (takeHex 8 t.data).isSome

/-- `Bearer.__init__` restricted to an already-typed `ContentId` id (the
string-id branch just calls `ContentId.fromstring`, which is modelled
separately).  Raises `ValueError` (modelled `none`) when a trigger is given
that does not match `TRIGGER_PATTERN`. -/
def Bearer.init (id : ContentId) (trigger : Option String) : Option Bearer :=
  match trigger with
  | none => some ⟨id, none⟩
  | some t => if triggerMatch t then some ⟨id, some t⟩ else none

/-- `Bearer.__str__`: the string form of the underlying `ContentId` (the
trigger does not appear). -/
def Bearer.str (b : Bearer) : String :=
  b.id.str

/-! ## Multimedia (`src/dabepg/__init__.py`, lines 440-470) -/

/-- `Multimedia.LOGO_UNRESTRICTED`. -/
def LOGO_UNRESTRICTED : String := "logo_unrestricted"

/-- `Multimedia.LOGO_MONO_SQUARE`. -/
def LOGO_MONO_SQUARE : String := "logo_mono_square"

/-- `Multimedia.LOGO_COLOUR_SQUARE`. -/
def LOGO_COLOUR_SQUARE : String := "logo_colour_square"

/-- `Multimedia.LOGO_MONO_RECTANGLE`. -/
def LOGO_MONO_RECTANGLE : String := "logo_mono_rectangle"

/-- `Multimedia.LOGO_COLOUR_RECTANGLE`. -/
def LOGO_COLOUR_RECTANGLE : String := "logo_colour_rectangle"

/-- Multimedia descriptor attached to a programme or programme event. -/
structure Multimedia where
  url : String
  type : String
  mimetype : Option String
  height : Option Nat
  width : Option Nat
deriving DecidableEq, Repr

/-- Python truthiness of an optional integer field: `None` and `0` are
falsy, every other integer is truthy. -/
def pyTruthyNat : Option Nat → Bool
  | some (_ + 1) => true
  | _ => false

/-- `Multimedia.__init__`: stores the fields, then raises `ValueError`
(modelled `none`) when `type == LOGO_UNRESTRICTED and (not height or not
width)`, or when `type != LOGO_UNRESTRICTED and (height or width)`. -/
def Multimedia.init (url ty : String) (mimetype : Option String)
    (height width : Option Nat) : Option Multimedia :=
  if ty == LOGO_UNRESTRICTED && (!pyTruthyNat height || !pyTruthyNat width) then none
  else if ty != LOGO_UNRESTRICTED && (pyTruthyNat height || pyTruthyNat width) then none
  else some ⟨url, ty, mimetype, height, width⟩

/-- Claim-side notion for C8 as amended: the optional dimension is provided
with a non-zero value. -/
def providedNonzero (o : Option Nat) : Prop :=
  ∃ n, o = some n ∧ n ≠ 0

/-! ## Times and durations (`src/dabepg/__init__.py`, lines 267-338)

Instants (`datetime.datetime`) are modelled as `Int` (abstract epoch
offset); durations (`datetime.timedelta`) as seconds, normalized into a
`Timedelta` of whole days plus a seconds-of-day count exactly as Python
normalizes (`0 ≤ seconds < 86400`, days may be negative).
-/

/-- Model of `datetime.isoformat()`: an injective rendering of the abstract
instant.  No claim inspects the text of an isoformat string. -/
def isoInstant (t : Int) : String :=
  toString t

/-- Model of a normalized `datetime.timedelta`: `days` whole days plus
`seconds` seconds-of-day (`0 ≤ seconds < 86400` holds for every value
Python constructs). -/
structure Timedelta where
  days : Int
  seconds : Nat
deriving DecidableEq, Repr

/-- `datetime.timedelta(seconds=n)`: Python normalizes with floor division
so that the seconds component is in `[0, 86400)`. -/
def timedeltaOfSeconds (n : Int) : Timedelta :=
  ⟨Int.ediv n 86400, (Int.emod n 86400).toNat⟩

/-- Absolute `Time` of a programme or programme event (billed scheduled
instant plus duration, optional actual instant plus duration).  Durations
are in seconds. -/
structure Time where
  billed_time : Int
  billed_duration : Int
  actual_time : Option Int
  actual_duration : Option Int
deriving DecidableEq, Repr

/-- `RelativeTime`: the same four quantities as offsets relative to the
owning programme's base time. -/
structure RelativeTime where
  billed_offset : Int
  billed_duration : Int
  actual_offset : Option Int
  actual_duration : Option Int
deriving DecidableEq, Repr

/-- A time entry of a `Location` is either an absolute `Time` or a
`RelativeTime` (the two concrete subclasses of `BaseTime`). -/
inductive BTime
  | abs (t : Time)
  | rel (r : RelativeTime)
deriving DecidableEq, Repr

/-! ## Location (`src/dabepg/__init__.py`, lines 247-264) -/

/-- A bearer reference stored in a `Location` is dynamically either a
`ContentId` or a full `Bearer` (the `Location` constructor normalizes to
`ContentId`, but `Schedule.get_scope` still handles both). -/
inductive LocBearer
  | cid (c : ContentId)
  | br (b : Bearer)
deriving DecidableEq, Repr

/-- The string form of a stored bearer reference (`str(bearer)`). -/
def locBearerStr : LocBearer → String
  | .cid c => c.str
  | .br b => b.str

structure Location where
  times : List BTime
  bearers : List LocBearer
deriving DecidableEq, Repr

/-- Argument accepted by the `Location` constructor for a bearer: an
already-typed `ContentId`, a full `Bearer`, or a plain string. -/
inductive BearerArg
  | cid (c : ContentId)
  | br (b : Bearer)
  | str (s : String)
deriving DecidableEq, Repr

/-- Python `str(x)` for a bearer argument: `Bearer.__str__` is the string
of its underlying id; a string is itself. -/
def bearerArgStr : BearerArg → String
  | .cid c => c.str
  | .br b => b.str
  | .str s => s

/-- Eager Python 2 `map` over a list with exception propagation: the first
failing element aborts the whole construction. -/
def mapOption (f : α → Option β) : List α → Option (List β)
  | [] => some []
  | a :: l =>
    match f a with
    | none => none
    | some b => (mapOption f l).map (fun bs => b :: bs)

/-- `Location.__init__`: stores the times as given and replaces every
bearer that is not already a `ContentId` by
`ContentId.fromstring(str(bearer))` (raising, modelled `none`, when that
parse fails). -/
def Location.init (times : List BTime) (bearers : List BearerArg) : Option Location :=
  (mapOption (fun x =>
    match x with
    | BearerArg.cid c => some (LocBearer.cid c)
    | x => (ContentId.fromstring (bearerArgStr x)).map LocBearer.cid) bearers).map
    (fun bs => ⟨times, bs⟩)

/-! ## Texts, media, genre, membership, link

Only the structure needed by the marshaller is modelled: the three name
tiers (`build_name` dispatches on the concrete `Text` subclass), the two
description tiers and `Multimedia` (`build_mediagroup`), `Genre`,
`Membership` and `Link`.
-/

/-- A name value: `ShortName`, `MediumName` or `LongName`. -/
inductive NameText
  | short (s : String)
  | medium (s : String)
  | long (s : String)
deriving DecidableEq, Repr

/-- A media entry: `ShortDescription`, `LongDescription` or `Multimedia`. -/
inductive Media
  | shortDesc (s : String)
  | longDesc (s : String)
  | multi (m : Multimedia)
deriving DecidableEq, Repr

structure Genre where
  href : String
  name : Option String
deriving DecidableEq, Repr

structure Membership where
  shortcrid : Nat
  crid : Option String
  index : Option Nat
deriving DecidableEq, Repr

structure Link where
  url : String
  mimetype : Option String
  description : Option String
  expiry : Option Int
deriving DecidableEq, Repr

/-! ## Programme, ProgrammeEvent, Schedule, Scope, Epg
(`src/dabepg/__init__.py`, lines 472-624) -/

/-- `ProgrammeEvent`: per the constructor, `shortcrid` may dynamically be
absent (the event marshaller tests `is not None`), `version` defaults to
`None`, `onair` defaults true, `recommendation` defaults false. -/
structure ProgrammeEvent where
  shortcrid : Option Nat
  originator : Option String
  crid : Option String
  version : Option Nat
  bitrate : Option Nat
  onair : Bool
  recommendation : Bool
  names : List NameText
  locations : List Location
  media : List Media
  genres : List Genre
  keywords : List String
  memberships : List Membership
  links : List Link
deriving DecidableEq, Repr

/-- `Programme`: `shortcrid` required, `version` defaults to `1` (the
programme marshaller tests `is not None`, so it is kept optional),
`onair` and `recommendation` default true. -/
structure Programme where
  shortcrid : Nat
  crid : Option String
  version : Option Nat
  bitrate : Option Nat
  onair : Bool
  recommendation : Bool
  names : List NameText
  locations : List Location
  media : List Media
  genres : List Genre
  keywords : List String
  memberships : List Membership
  links : List Link
  events : List ProgrammeEvent
deriving DecidableEq, Repr

structure Schedule where
  created : Int
  version : Nat
  originator : Option String
  programmes : List Programme
deriving DecidableEq, Repr

/-- `Scope`: the `end` attribute of the source is called `stop` here
(`end` is reserved in Lean). -/
structure Scope where
  start : Int
  stop : Int
  services : List ContentId
deriving DecidableEq, Repr

structure Epg where
  type : String
  schedule : Schedule
deriving DecidableEq, Repr

/-! ## Schedule.get_scope (`src/dabepg/__init__.py`, lines 585-609) -/

/-- Accumulator of the `get_scope` loop: the running `start`, `end` and
`services` variables. -/
structure ScopeAcc where
  start : Option Int
  stop : Option Int
  services : List ContentId
deriving DecidableEq, Repr

/-- Body of the inner time loop of `get_scope`: relative times are
skipped; otherwise `start` is lowered to the billed time and `end` raised
to billed time plus billed duration. -/
def scopeTimeStep (acc : ScopeAcc) (t : BTime) : ScopeAcc :=
  match t with
  | .rel _ => acc
  | .abs t =>
    let start := match acc.start with
      | none => some t.billed_time
      | some s => if s > t.billed_time then some t.billed_time else some s
    let stop := match acc.stop with
      | none => some (t.billed_time + t.billed_duration)
      | some e => if e < t.billed_time + t.billed_duration
                  then some (t.billed_time + t.billed_duration) else some e
    ⟨start, stop, acc.services⟩

/-- Body of the inner bearer loop of `get_scope`: a full `Bearer`
contributes its `id`, a bare `ContentId` contributes itself; either is
appended only when no member of `services` compares equal
(`ContentId.__eq__`, i.e. canonical-string equality). -/
def scopeBearerStep (acc : ScopeAcc) (b : LocBearer) : ScopeAcc :=
  match b with
  | .br b =>
    if acc.services.any (fun d => cidEq d b.id) then acc
    else ⟨acc.start, acc.stop, acc.services ++ [b.id]⟩
  | .cid c =>
    if acc.services.any (fun d => cidEq d c) then acc
    else ⟨acc.start, acc.stop, acc.services ++ [c]⟩

/-- `Schedule.get_scope`: fold over every programme, location, time and
bearer; return `None` when no absolute time was seen. -/
def Schedule.get_scope (s : Schedule) : Option Scope :=
  let acc := s.programmes.foldl (fun acc programme =>
    programme.locations.foldl (fun acc location =>
      let acc := location.times.foldl scopeTimeStep acc
      location.bearers.foldl scopeBearerStep acc) acc) ⟨none, none, []⟩
  match acc.start, acc.stop with
  | some st, some en => some ⟨st, en, acc.services⟩
  | _, _ => none

/-! Claim-side definitions for C1/C5, following the claims' words. -/

/-- The absolute `Time` carried by a `BTime` entry, if any. -/
def btimeAbs : BTime → Option Time
  | .abs t => some t
  | .rel _ => none

/-- All time entries of all locations of all programmes, in traversal
order. -/
def scheduleBTimes (s : Schedule) : List BTime :=
  s.programmes.flatMap (fun p => p.locations.flatMap (fun l => l.times))

/-- Every absolute `Time` of every `Location` of every `Programme`
(relative times skipped), in traversal order. -/
def scheduleAbsTimes (s : Schedule) : List Time :=
  (scheduleBTimes s).filterMap btimeAbs

/-- All bearer references of all locations of all programmes, in traversal
order. -/
def scheduleLocBearers (s : Schedule) : List LocBearer :=
  s.programmes.flatMap (fun p => p.locations.flatMap (fun l => l.bearers))

/-- The identifier referenced by a stored bearer: a full `Bearer`
contributes its `id`, a bare `ContentId` contributes itself. -/
def locBearerId : LocBearer → ContentId
  | .cid c => c
  | .br b => b.id

/-- One step of first-seen-order deduplication by canonical identifier
string. -/
def dedupStep (acc : List ContentId) (c : ContentId) : List ContentId :=
  if acc.any (fun d => cidEq d c) then acc else acc ++ [c]

/-- Deduplicate a list of identifiers by canonical identifier string,
keeping first occurrences in insertion order (claim-side definition). -/
def dedupByStr (l : List ContentId) : List ContentId :=
  l.foldl dedupStep []

/-- The bearer identifiers referenced by any location of any programme,
deduplicated by canonical identifier string in first-seen order. -/
def scheduleServices (s : Schedule) : List ContentId :=
  dedupByStr ((scheduleLocBearers s).map locBearerId)

/-- Minimum-tracking step on an optional running value, mirroring `if
start is None or start > t: start = t`. -/
def optMinStep : Option Int → Int → Option Int
  | none, x => some x
  | some a, x => if a > x then some x else some a

/-- Maximum-tracking step on an optional running value, mirroring `if end
is None or end < t: end = t`. -/
def optMaxStep : Option Int → Int → Option Int
  | none, x => some x
  | some a, x => if a < x then some x else some a

/-- Billed start instants of a list of time entries (absolute only). -/
def billedStarts (ts : List BTime) : List Int :=
  (ts.filterMap btimeAbs).map (fun t => t.billed_time)

/-- Billed end instants (billed start plus billed duration) of a list of
time entries (absolute only). -/
def billedEnds (ts : List BTime) : List Int :=
  (ts.filterMap btimeAbs).map (fun t => t.billed_time + t.billed_duration)

/-! ## ServiceInfo side of the domain model
(`src/dabepg/__init__.py`, lines 198-221, 627-682) -/

/-- `Service`: note the constructor stores `self.ids = [id]` — there is no
`id` attribute on instances (which matters at marshal time). -/
structure Service where
  ids : List ContentId
  bitrate : Option Nat
  type : String
  format : String
  version : Nat
  names : List NameText
  media : List Media
  genres : List Genre
  links : List Link
  simulcasts : List ContentId
  keywords : List String
deriving DecidableEq, Repr

structure Ensemble where
  id : ContentId
  version : Nat
  names : List NameText
  media : List Media
  keywords : List String
  links : List Link
  frequencies : List Nat
  ca : Option Nat
  services : List Service
deriving DecidableEq, Repr

structure ServiceInfo where
  created : Int
  version : Nat
  originator : Option String
  provider : Option String
  type : String
  ensembles : List Ensemble
deriving DecidableEq, Repr

/-! ## The XML element tree
(`src/dabepg/xml/__init__.py`; `xml.dom.minidom` documents) -/

/-- A DOM node: element (tag, attributes in set order, children in append
order), text node, or CDATA section. -/
inductive XNode
  | elem (tag : String) (attrs : List (String × String)) (children : List XNode)
  | text (s : String)
  | cdata (s : String)

/-- Tag of a node (empty for text/CDATA). -/
def XNode.tagOf : XNode → String
  | .elem t _ _ => t
  | .text _ => ""
  | .cdata _ => ""

/-- Attributes of a node. -/
def XNode.attrsOf : XNode → List (String × String)
  | .elem _ a _ => a
  | _ => []

/-- Children of a node. -/
def XNode.childrenOf : XNode → List XNode
  | .elem _ _ c => c
  | _ => []

/-- `element.appendChild(node)`. -/
def XNode.appendChild : XNode → XNode → XNode
  | .elem t a c, n => .elem t a (c ++ [n])
  | x, _ => x

/-- Descendant elements with the given tag, in document order, for a list
of sibling subtrees (workhorse of `getElementsByTagName`). -/
def byTagList (tag : String) : List XNode → List XNode
  | [] => []
  | c :: rest =>
    (match c with
     | .elem t a ch => (if t = tag then [XNode.elem t a ch] else []) ++ byTagList tag ch
     | _ => []) ++ byTagList tag rest

/-- minidom's `element.getElementsByTagName(tag)`: all descendant elements
with the given tag (the element itself excluded). -/
def XNode.getElementsByTagName (tag : String) (n : XNode) : List XNode :=
  byTagList tag n.childrenOf

/-- Python `str(x)` on an optional integer attribute value (`str(None)` is
the string `"None"`). -/
def pyStrOptNat : Option Nat → String
  | some n => toString n
  | none => "None"

/-! ## Duration rendering (`get_iso_period`, xml module lines 337-350) -/

/-- `get_iso_period`: render a `timedelta` as a calendar-style ISO-8601
period.  Python 2 `/` on ints is integer division.  The final `seconds`
variable shadows the input's seconds count, exactly as in the source. -/
def get_iso_period (d : Timedelta) : String :=
  let days := d.days
  let hours := d.seconds / (60 * 60)
  let minutes := (d.seconds - hours * 60 * 60) / 60
  let seconds := d.seconds - hours * 60 * 60 - minutes * 60
  "P" ++ (if days > 0 then toString days ++ "D" else "")
    ++ "T"
    ++ (if hours > 0 then toString hours ++ "H" else "")
    ++ (if minutes > 0 then toString minutes ++ "M" else "")
    ++ (if seconds > 0 then toString seconds ++ "S" else "")
    ++ (if hours = 0 ∧ minutes = 0 ∧ seconds = 0 then "0S" else "")

/-- Claim-side rendering for C6, written from the claim's words: a
calendar-style ISO-8601 period built from (days, hours, minutes, seconds)
in that order, each unit emitted only if non-zero, the `T` designator
always present, and an explicit `0S` emitted when hours, minutes and
seconds are all zero. -/
def iso_period_claim (days : Int) (hours minutes seconds : Nat) : String :=
  "P" ++ (if days ≠ 0 then toString days ++ "D" else "")
    ++ "T"
    ++ (if hours ≠ 0 then toString hours ++ "H" else "")
    ++ (if minutes ≠ 0 then toString minutes ++ "M" else "")
    ++ (if seconds ≠ 0 then toString seconds ++ "S" else "")
    ++ (if hours = 0 ∧ minutes = 0 ∧ seconds = 0 then "0S" else "")

/-! ## The marshaller as a pure element-tree builder
(`src/dabepg/xml/__init__.py`, lines 27-335)

Each `build_*` function below produces the element that the corresponding
source function constructs, with attributes listed in `setAttribute` order
and children in `appendChild` order.  Where the source raises before the
document is complete, the builder returns `none`.
-/

def SCHEDULE_NS : String := "http://www.worlddab.org/schemas/epgSchedule/14"

def TYPES_NS : String := "http://www.worlddab.org/schemas/epgDataTypes/14"

def XSI_NS : String := "http://www.w3.org/2001/XMLSchema-instance"

/-- The namespace-fudging attribute block shared by both root elements
(`xmlns`, `xmlns:epg`, `xmlns:xsi`, `xsi:schemaLocation`, `xml:lang`). -/
def epgNsAttrs : List (String × String) :=
  [("xmlns", SCHEDULE_NS), ("xmlns:epg", TYPES_NS), ("xmlns:xsi", XSI_NS),
   ("xsi:schemaLocation", SCHEDULE_NS ++ " epgSchedule_14.xsd"), ("xml:lang", "en")]

/-- `build_name`: dispatch on the concrete name tier. -/
def build_name (name : NameText) : XNode :=
  match name with
  | .short s => .elem "epg:shortName" [] [.text s]
  | .medium s => .elem "epg:mediumName" [] [.text s]
  | .long s => .elem "epg:longName" [] [.text s]

/-- `build_location` (tree part): times in list order (absolute as
`epg:time`, relative as `epg:relativeTime`), then bearers in list order. -/
def build_location_tree (location : Location) : XNode :=
  .elem "epg:location" []
    (location.times.map (fun t =>
      match t with
      | .abs t => XNode.elem "epg:time"
          [("time", isoInstant t.billed_time),
           ("duration", get_iso_period (timedeltaOfSeconds t.billed_duration))] []
      | .rel r => XNode.elem "epg:relativeTime"
          [("time", get_iso_period (timedeltaOfSeconds r.billed_offset)),
           ("duration", get_iso_period (timedeltaOfSeconds r.billed_duration))] [])
     ++ location.bearers.map (fun b => XNode.elem "epg:bearer" [("id", locBearerStr b)] []))

/-- `build_mediagroup`: the optional `namespace` argument prefixes the
`mediaDescription` tag; height/width are emitted only for the
unrestricted-logo type. -/
def build_mediagroup (media : Media) (ns : Option String) : XNode :=
  let nsp := match ns with
    | some n => n ++ ":"
    | none => ""
  match media with
  | .shortDesc s =>
    .elem (nsp ++ "mediaDescription") [] [.elem "epg:shortDescription" [] [.cdata s]]
  | .longDesc s =>
    .elem (nsp ++ "mediaDescription") [] [.elem "epg:longDescription" [] [.cdata s]]
  | .multi m =>
    .elem (nsp ++ "mediaDescription") []
      [.elem "epg:multimedia"
        ([("url", m.url), ("type", m.type)]
         ++ (if m.type = LOGO_UNRESTRICTED
             then [("height", pyStrOptNat m.height), ("width", pyStrOptNat m.width)]
             else [])) []]

/-- `build_genre`. -/
def build_genre (genre : Genre) : XNode :=
  .elem "epg:genre" [("href", genre.href)]
    (match genre.name with
     | some n => [XNode.elem "epg:name" [] [.cdata n]]
     | none => [])

/-- `build_membership`. -/
def build_membership (membership : Membership) : XNode :=
  .elem "memberOf"
    ([("shortId", toString membership.shortcrid)]
     ++ (match membership.crid with
         | some c => [("crid", c)]
         | none => [])
     ++ (match membership.index with
         | some i => [("index", toString i)]
         | none => [])) []

/-- `build_link`. -/
def build_link (link : Link) : XNode :=
  .elem "link"
    ([("url", link.url)]
     ++ (match link.description with
         | some d => [("description", d)]
         | none => [])
     ++ (match link.mimetype with
         | some m => [("mimeType", m)]
         | none => [])
     ++ (match link.expiry with
         | some e => [("expiryTime", isoInstant e)]
         | none => [])) []

/-- `build_programme_event` (tree part).  The broadcast condition in the
source, `if not event.onair is not None:`, parses as
`if event.onair is None:` (comparison binds tighter than `not`), which is
false for every boolean flag — so no `broadcast` attribute is ever emitted
on a programme event. -/
def build_programme_event_tree (event : ProgrammeEvent) : XNode :=
  .elem "epg:programmeEvent"
    ((match event.shortcrid with
      | some sc => [("shortId", toString sc)]
      | none => [])
     ++ (match event.crid with
         | some c => [("id", c)]
         | none => [])
     ++ (match event.version with
         | some v => [("version", toString v)]
         | none => [])
     ++ (if event.recommendation then [("recommendation", "yes")] else [])
     ++ (match event.bitrate with
         | some b => [("bitrate", toString b)]
         | none => []))
    (event.names.map build_name
     ++ event.locations.map build_location_tree
     ++ event.media.map (fun m => build_mediagroup m (some "epg"))
     ++ event.genres.map build_genre
     ++ event.memberships.map build_membership
     ++ event.links.map build_link)

/-- The `programme` element of `marshall_epg` (tree part): `broadcast` is
emitted as `off-air` exactly when `onair` is falsy. -/
def build_programme_tree (programme : Programme) : XNode :=
  .elem "programme"
    ([("shortId", toString programme.shortcrid)]
     ++ (match programme.crid with
         | some c => [("id", c)]
         | none => [])
     ++ (match programme.version with
         | some v => [("version", toString v)]
         | none => [])
     ++ (if programme.recommendation then [("recommendation", "yes")] else [])
     ++ (if programme.onair then [] else [("broadcast", "off-air")])
     ++ (match programme.bitrate with
         | some b => [("bitrate", toString b)]
         | none => []))
    (programme.names.map build_name
     ++ programme.locations.map build_location_tree
     ++ programme.media.map (fun m => build_mediagroup m (some "epg"))
     ++ programme.genres.map build_genre
     ++ programme.memberships.map build_membership
     ++ programme.links.map build_link
     ++ programme.events.map build_programme_event_tree)

/-- The `scope` element of `marshall_epg` (tree part). -/
def build_scope_tree (scope : Scope) : XNode :=
  .elem "scope"
    [("startTime", isoInstant scope.start), ("stopTime", isoInstant scope.stop)]
    (scope.services.map (fun svc => XNode.elem "serviceScope" [("id", svc.str)] []))

/-- The `schedule` element of `marshall_epg` (tree part): `version` is set
unconditionally, the `scope` child is present only when `get_scope`
returned one, programmes follow in list order. -/
def build_schedule_tree (schedule : Schedule) : XNode :=
  .elem "schedule"
    ([("version", toString schedule.version),
      ("creationTime", isoInstant schedule.created)]
     ++ (match schedule.originator with
         | some o => [("originator", o)]
         | none => []))
    ((match schedule.get_scope with
      | some scope => [build_scope_tree scope]
      | none => [])
     ++ schedule.programmes.map build_programme_tree)

/-- `marshall_epg` (tree part): the `epg` root element. -/
def marshall_epg_tree (epg : Epg) : XNode :=
  .elem "epg" (epgNsAttrs ++ [("system", epg.type)]) [build_schedule_tree epg.schedule]

/-- The `ensemble` element of `marshall_serviceinfo`.  Frequencies use a
positional primary/secondary rule evaluated against the partially built
element via `getElementsByTagName`.  The service loop executes
`str(service.id)` — but `Service.__init__` stores `self.ids`, not
`self.id`, so the first service raises `AttributeError` and the whole
marshal call dies: any ensemble with services yields `none`. -/
def build_ensemble_tree (ensemble : Ensemble) : Option XNode :=
  let base := XNode.elem "ensemble"
    ([("id", ensemble.id.str)]
     ++ (if ensemble.version > 1 then [("version", toString ensemble.version)] else []))
    (ensemble.names.map build_name)
  let withFreqs := ensemble.frequencies.foldl (fun el f =>
    let ftype := if (XNode.getElementsByTagName "frequency" el).length = 0
                 then "primary" else "secondary"
    el.appendChild (XNode.elem "frequency" [("type", ftype), ("kHz", toString f)] [])) base
  match ensemble.services with
  | [] => some withFreqs
  | _ :: _ => none

/-- `marshall_serviceinfo` (tree part): the `serviceInformation` root.
The `version` attribute is emitted only when `info.version > 1`; a
`ServiceInfo` whose ensembles contain any `Service` fails to marshal (see
`build_ensemble_tree`). -/
def marshall_serviceinfo_tree (info : ServiceInfo) : Option XNode :=
  (mapOption build_ensemble_tree info.ensembles).map (fun ensembles =>
    XNode.elem "serviceInformation"
      ((if info.version > 1 then [("version", toString info.version)] else [])
       ++ [("creationTime", isoInstant info.created)]
       ++ (match info.originator with
           | some o => [("originator", o)]
           | none => [])
       ++ (match info.provider with
           | some p => [("serviceProvider", p)]
           | none => [])
       ++ [("system", info.type)]
       ++ epgNsAttrs)
      ensembles)

/-! ## The marshaller as an event trace (`marshall_epg`, listener timing)

For the claim about listener-callback timing, `marshall_epg` is modelled a
second time as a builder of an event trace: element ids are allocated
sequentially by `createElement`, and every `createElement`,
`setAttribute`, `appendChild` (of an element, a text node or a CDATA
section), document attachment and `listener.on_element` call appends an
event to the trace, in the execution order of the source.
-/

/-- One observable step of a marshal call. -/
inductive TEvent
  | create (e : Nat) (tag : String)
  | setAttr (e : Nat) (name val : String)
  | attach (parent child : Nat)
  | attachText (e : Nat) (s : String)
  | attachCData (e : Nat) (s : String)
  | attachDoc (e : Nat)
  | callback (e : Nat)
deriving DecidableEq, Repr

/-- Element ids mentioned by an event. -/
def evIds : TEvent → List Nat
  | .create e _ => [e]
  | .setAttr e _ _ => [e]
  | .attach p c => [p, c]
  | .attachText e _ => [e]
  | .attachCData e _ => [e]
  | .attachDoc e => [e]
  | .callback e => [e]

/-- Marshalling state: the next fresh element id and the trace so far. -/
structure TState where
  nextId : Nat
  trace : List TEvent
deriving DecidableEq, Repr

/-- Record one event. -/
def push (ev : TEvent) (s : TState) : TState :=
  ⟨s.nextId, s.trace ++ [ev]⟩

/-- Record several events at once (used for a run of consecutive
`setAttribute` calls on one element). -/
def pushAll (evs : List TEvent) (s : TState) : TState :=
  ⟨s.nextId, s.trace ++ evs⟩

/-- `doc.createElement(tag)`: allocate the next id and record the
creation. -/
def newElem (tag : String) (s : TState) : Nat × TState :=
  (s.nextId, ⟨s.nextId + 1, s.trace ++ [TEvent.create s.nextId tag]⟩)

/-- `build_name` (trace): create the tier-specific element and append its
text node.  No listener call. -/
def build_name_tr (name : NameText) (s : TState) : Nat × TState :=
  let (e, s) := newElem (match name with
    | NameText.short _ => "epg:shortName"
    | NameText.medium _ => "epg:mediumName"
    | NameText.long _ => "epg:longName") s
  (e, push (TEvent.attachText e (match name with
    | NameText.short t => t
    | NameText.medium t => t
    | NameText.long t => t)) s)

/-- One time entry of `build_location` (trace): create, append to the
location, set both attributes, then the listener call — the time element
is attached to its parent before its attributes are set and before its
callback. -/
def locTimeStep (le : Nat) (s : TState) (t : BTime) : TState :=
  match t with
  | BTime.abs t =>
    let (te, s) := newElem "epg:time" s
    let s := push (TEvent.attach le te) s
    let s := push (TEvent.setAttr te "time" (isoInstant t.billed_time)) s
    let s := push (TEvent.setAttr te "duration"
      (get_iso_period (timedeltaOfSeconds t.billed_duration))) s
    push (TEvent.callback te) s
  | BTime.rel r =>
    let (te, s) := newElem "epg:relativeTime" s
    let s := push (TEvent.attach le te) s
    let s := push (TEvent.setAttr te "time"
      (get_iso_period (timedeltaOfSeconds r.billed_offset))) s
    let s := push (TEvent.setAttr te "duration"
      (get_iso_period (timedeltaOfSeconds r.billed_duration))) s
    push (TEvent.callback te) s

/-- One bearer entry of `build_location` (trace): create, append to the
location, set the id attribute, then the listener call. -/
def locBearerStep (le : Nat) (s : TState) (b : LocBearer) : TState :=
  let (be, s) := newElem "epg:bearer" s
  let s := push (TEvent.attach le be) s
  let s := push (TEvent.setAttr be "id" (locBearerStr b)) s
  push (TEvent.callback be) s

/-- `build_location` (trace).  The location element itself receives no
listener call here (its caller may or may not make one). -/
def build_location_tr (location : Location) (s : TState) : Nat × TState :=
  let (le, s) := newElem "epg:location" s
  let s := location.times.foldl (locTimeStep le) s
  let s := location.bearers.foldl (locBearerStep le) s
  (le, s)

/-- The `setAttribute` events of the `epg:multimedia` element built by
`build_mediagroup`: url, type, and — only for the unrestricted-logo
type — height and width. -/
def multimediaAttrEvents (xe : Nat) (m : Multimedia) : List TEvent :=
  [TEvent.setAttr xe "url" m.url, TEvent.setAttr xe "type" m.type]
  ++ (if m.type = LOGO_UNRESTRICTED
      then [TEvent.setAttr xe "height" (pyStrOptNat m.height),
            TEvent.setAttr xe "width" (pyStrOptNat m.width)]
      else [])

/-- `build_mediagroup` (trace).  No listener calls. -/
def build_mediagroup_tr (media : Media) (ns : Option String) (s : TState) : Nat × TState :=
  let nsp := match ns with
    | some n => n ++ ":"
    | none => ""
  let (me, s) := newElem (nsp ++ "mediaDescription") s
  match media with
  | Media.shortDesc t =>
    let (de, s) := newElem "epg:shortDescription" s
    let s := push (TEvent.attach me de) s
    (me, push (TEvent.attachCData de t) s)
  | Media.longDesc t =>
    let (de, s) := newElem "epg:longDescription" s
    let s := push (TEvent.attach me de) s
    (me, push (TEvent.attachCData de t) s)
  | Media.multi m =>
    let (xe, s) := newElem "epg:multimedia" s
    let s := push (TEvent.attach me xe) s
    (me, pushAll (multimediaAttrEvents xe m) s)

/-- `build_genre` (trace).  No listener calls. -/
def build_genre_tr (genre : Genre) (s : TState) : Nat × TState :=
  let (ge, s) := newElem "epg:genre" s
  let s := push (TEvent.setAttr ge "href" genre.href) s
  let s := match genre.name with
    | some n =>
      let (ne, s) := newElem "epg:name" s
      let s := push (TEvent.attach ge ne) s
      push (TEvent.attachCData ne n) s
    | none => s
  (ge, s)

/-- The `setAttribute` events of `build_membership`. -/
def membershipAttrEvents (e : Nat) (membership : Membership) : List TEvent :=
  [TEvent.setAttr e "shortId" (toString membership.shortcrid)]
  ++ (match membership.crid with
      | some c => [TEvent.setAttr e "crid" c]
      | none => [])
  ++ (match membership.index with
      | some i => [TEvent.setAttr e "index" (toString i)]
      | none => [])

/-- `build_membership` (trace).  No listener calls. -/
def build_membership_tr (membership : Membership) (s : TState) : Nat × TState :=
  let (e, s) := newElem "memberOf" s
  (e, pushAll (membershipAttrEvents e membership) s)

/-- The `setAttribute` events of `build_link`. -/
def linkAttrEvents (e : Nat) (link : Link) : List TEvent :=
  [TEvent.setAttr e "url" link.url]
  ++ (match link.description with
      | some d => [TEvent.setAttr e "description" d]
      | none => [])
  ++ (match link.mimetype with
      | some m => [TEvent.setAttr e "mimeType" m]
      | none => [])
  ++ (match link.expiry with
      | some x => [TEvent.setAttr e "expiryTime" (isoInstant x)]
      | none => [])

/-- `build_link` (trace).  No listener calls. -/
def build_link_tr (link : Link) (s : TState) : Nat × TState :=
  let (e, s) := newElem "link" s
  (e, pushAll (linkAttrEvents e link) s)

/-- The `setAttribute` events of `build_programme_event` (no `broadcast`:
the condition `if not event.onair is not None:` is `event.onair is None`,
never true for a boolean). -/
def eventAttrEvents (e : Nat) (event : ProgrammeEvent) : List TEvent :=
  (match event.shortcrid with
   | some sc => [TEvent.setAttr e "shortId" (toString sc)]
   | none => [])
  ++ (match event.crid with
      | some c => [TEvent.setAttr e "id" c]
      | none => [])
  ++ (match event.version with
      | some v => [TEvent.setAttr e "version" (toString v)]
      | none => [])
  ++ (if event.recommendation then [TEvent.setAttr e "recommendation" "yes"] else [])
  ++ (match event.bitrate with
      | some b => [TEvent.setAttr e "bitrate" (toString b)]
      | none => [])

/-- Append a built child element to a parent without a listener call
(the pattern of every child loop inside `build_programme_event`). -/
def attachChildStep (pe : Nat) (build : TState → Nat × TState) (s : TState) : TState :=
  let (c, s) := build s
  push (TEvent.attach pe c) s

/-- The child builders of a programme event, in the source's loop order:
names, locations, media, genres, memberships, links. -/
def eventChildBuilders (event : ProgrammeEvent) : List (TState → Nat × TState) :=
  event.names.map (fun n => build_name_tr n)
  ++ event.locations.map (fun l => build_location_tr l)
  ++ event.media.map (fun m => build_mediagroup_tr m (some "epg"))
  ++ event.genres.map (fun g => build_genre_tr g)
  ++ event.memberships.map (fun m => build_membership_tr m)
  ++ event.links.map (fun l => build_link_tr l)

/-- `build_programme_event` (trace): attributes, then children appended
directly (no per-child listener call; only the time/bearer elements inside
locations get callbacks). -/
def build_programme_event_tr (event : ProgrammeEvent) (s : TState) : Nat × TState :=
  let (e, s) := newElem "epg:programmeEvent" s
  let s := pushAll (eventAttrEvents e event) s
  let s := (eventChildBuilders event).foldl (fun s b => attachChildStep e b s) s
  (e, s)

/-- Build a child of the `programme` element: build, listener callback,
then attach — the uniform three-line pattern of the seven child loops in
`marshall_epg` (lines 176-209 of the xml module). -/
def childStep (pe : Nat) (build : TState → Nat × TState) (s : TState) : TState :=
  let (c, s) := build s
  let s := push (TEvent.callback c) s
  push (TEvent.attach pe c) s

/-- The child builders of a programme, in the source's loop order: names,
locations, media, genres, memberships, links, events. -/
def progChildBuilders (programme : Programme) : List (TState → Nat × TState) :=
  programme.names.map (fun n => build_name_tr n)
  ++ programme.locations.map (fun l => build_location_tr l)
  ++ programme.media.map (fun m => build_mediagroup_tr m (some "epg"))
  ++ programme.genres.map (fun g => build_genre_tr g)
  ++ programme.memberships.map (fun m => build_membership_tr m)
  ++ programme.links.map (fun l => build_link_tr l)
  ++ programme.events.map (fun ev => build_programme_event_tr ev)

/-- The `setAttribute` events of the `programme` element. -/
def progAttrEvents (e : Nat) (programme : Programme) : List TEvent :=
  [TEvent.setAttr e "shortId" (toString programme.shortcrid)]
  ++ (match programme.crid with
      | some c => [TEvent.setAttr e "id" c]
      | none => [])
  ++ (match programme.version with
      | some v => [TEvent.setAttr e "version" (toString v)]
      | none => [])
  ++ (if programme.recommendation then [TEvent.setAttr e "recommendation" "yes"] else [])
  ++ (if programme.onair then [] else [TEvent.setAttr e "broadcast" "off-air"])
  ++ (match programme.bitrate with
      | some b => [TEvent.setAttr e "bitrate" (toString b)]
      | none => [])

/-- One programme of `marshall_epg` (trace): create, attributes, children
via `childStep`, then — in this order — attach to the schedule element and
only afterwards the listener call for the programme element itself
(source lines 211-213). -/
def progStep (se : Nat) (programme : Programme) (s : TState) : TState :=
  let (pe, s) := newElem "programme" s
  let s := pushAll (progAttrEvents pe programme) s
  let s := (progChildBuilders programme).foldl (fun s b => childStep pe b s) s
  let s := push (TEvent.attach se pe) s
  push (TEvent.callback pe) s

/-- The scope part of `marshall_epg` (trace): nothing when `get_scope`
returned `None`; otherwise create the scope element, set its attributes,
then per service create/set/attach/callback (the serviceScope element is
attached before its callback), then the scope callback and the attachment
to the schedule element (callback before attach). -/
def scopeStep (se : Nat) (sc : Option Scope) (s : TState) : TState :=
  match sc with
  | none => s
  | some scope =>
    let (sce, s) := newElem "scope" s
    let s := push (TEvent.setAttr sce "startTime" (isoInstant scope.start)) s
    let s := push (TEvent.setAttr sce "stopTime" (isoInstant scope.stop)) s
    let s := scope.services.foldl (fun s svc =>
      let (sse, s) := newElem "serviceScope" s
      let s := push (TEvent.setAttr sse "id" svc.str) s
      let s := push (TEvent.attach sce sse) s
      push (TEvent.callback sse) s) s
    let s := push (TEvent.callback sce) s
    push (TEvent.attach se sce) s

/-- `marshall_epg` (trace): the epg root is created and attached to the
document first, then its namespace attributes are set; the schedule
element is attached to the root before its attributes are set and never
receives a listener call; then scope, programmes and the final root
callback. -/
def marshall_epg_tr (epg : Epg) : TState :=
  let s : TState := ⟨0, []⟩
  let (ee, s) := newElem "epg" s
  let s := push (TEvent.attachDoc ee) s
  let s := push (TEvent.setAttr ee "xmlns" SCHEDULE_NS) s
  let s := push (TEvent.setAttr ee "xmlns:epg" TYPES_NS) s
  let s := push (TEvent.setAttr ee "xmlns:xsi" XSI_NS) s
  let s := push (TEvent.setAttr ee "xsi:schemaLocation" (SCHEDULE_NS ++ " epgSchedule_14.xsd")) s
  let s := push (TEvent.setAttr ee "xml:lang" "en") s
  let s := push (TEvent.setAttr ee "system" epg.type) s
  let (se, s) := newElem "schedule" s
  let s := push (TEvent.attach ee se) s
  let s := push (TEvent.setAttr se "version" (toString epg.schedule.version)) s
  let s := push (TEvent.setAttr se "creationTime" (isoInstant epg.schedule.created)) s
  let s := match epg.schedule.originator with
    | some o => push (TEvent.setAttr se "originator" o) s
    | none => s
  let s := scopeStep se epg.schedule.get_scope s
  let s := epg.schedule.programmes.foldl (fun s programme => progStep se programme s) s
  push (TEvent.callback ee) s

/-! Specification predicates used to reason about the traces. -/

/-- A run of events that only sets attributes of the element `e`. -/
def setAttrOnly (e : Nat) (evs : List TEvent) : Prop :=
  ∀ ev ∈ evs, ∃ nm v, ev = TEvent.setAttr e nm v

/-- A state-to-state builder piece started at a state with at least `lo`
allocated ids: it only appends to the trace, never lowers `nextId`, and
every appended event mentions only fresh ids (allocated by the piece
itself) or the designated `parents`; parents are never called back, never
attached as a child, and the piece never creates an element tagged
`programme`. -/
def EmitsFrom (lo : Nat) (parents : List Nat) (g : TState → TState) : Prop :=
  ∀ s : TState, lo ≤ s.nextId →
    s.nextId ≤ (g s).nextId
    ∧ ∃ Δ, (g s).trace = s.trace ++ Δ
      ∧ (∀ ev ∈ Δ, ∀ i ∈ evIds ev, (s.nextId ≤ i ∧ i < (g s).nextId) ∨ i ∈ parents)
      ∧ (∀ ev ∈ Δ, ∀ p ∈ parents, ev ≠ TEvent.callback p ∧ ∀ q, ev ≠ TEvent.attach q p)
      ∧ (∀ ev ∈ Δ, ∀ i, ev ≠ TEvent.create i "programme")

/-- An element builder: returns the fresh root id, strictly advances
`nextId`, and emits only events about its own fresh ids; the root is never
called back and never attached to anything inside the builder, and no
element tagged `programme` is created. -/
def BuildsFresh (b : TState → Nat × TState) : Prop :=
  ∀ s : TState,
    (b s).1 = s.nextId
    ∧ s.nextId < (b s).2.nextId
    ∧ ∃ Δ, (b s).2.trace = s.trace ++ Δ
      ∧ (∀ ev ∈ Δ, ∀ i ∈ evIds ev, s.nextId ≤ i ∧ i < (b s).2.nextId)
      ∧ (∀ ev ∈ Δ, ev ≠ TEvent.callback s.nextId ∧ ∀ q, ev ≠ TEvent.attach q s.nextId)
      ∧ (∀ ev ∈ Δ, ∀ i, ev ≠ TEvent.create i "programme")

/-! ## Lemmas: hexadecimal helpers -/

theorem hexVal_hexChar (n : Nat) (h : n < 16) : hexVal (hexChar n) = n := by
  interval_cases n <;> rfl

theorem isHexDigitB_hexChar (n : Nat) (h : n < 16) : isHexDigitB (hexChar n) = true := by
  interval_cases n <;> rfl

theorem hexListVal_acc (l : List Char) :
    ∀ a : Nat, l.foldl (fun a c => a * 16 + hexVal c) a = a * 16 ^ l.length + hexListVal l := by
  induction l with
  | nil => intro a; simp [hexListVal]
  | cons c l ih =>
    intro a
    have hc : hexListVal (c :: l) = hexVal c * 16 ^ l.length + hexListVal l := by
      show List.foldl _ _ (c :: l) = _
      rw [List.foldl_cons, ih (0 * 16 + hexVal c)]
      ring_nf
    rw [hc]
    show List.foldl _ _ l = _
    rw [ih (a * 16 + hexVal c)]
    rw [List.length_cons]
    ring_nf

theorem hexListVal_append_singleton (l : List Char) (c : Char) :
    hexListVal (l ++ [c]) = hexListVal l * 16 + hexVal c := by
  show List.foldl _ _ (l ++ [c]) = _
  rw [List.foldl_append, hexListVal_acc]
  simp [hexListVal]

theorem toHexNatAux_props :
    ∀ fuel n, n < fuel →
      (1 ≤ (toHexNatAux fuel n).length
       ∧ (∀ c ∈ toHexNatAux fuel n, isHexDigitB c = true)
       ∧ hexListVal (toHexNatAux fuel n) = n
       ∧ n < 16 ^ (toHexNatAux fuel n).length) := by
  intro fuel
  induction fuel with
  | zero => intro n h; omega
  | succ fuel ih =>
    intro n h
    by_cases h16 : n < 16
    · simp only [toHexNatAux, if_pos h16]
      refine ⟨by simp, ?_, ?_, by simpa using h16⟩
      · intro c hc
        simp only [List.mem_singleton] at hc
        subst hc
        exact isHexDigitB_hexChar n h16
      · simp [hexListVal, hexVal_hexChar n h16]
    · have hpos : 0 < n := by omega
      have hdiv : n / 16 < n := Nat.div_lt_self hpos (by norm_num)
      have hfuel : n / 16 < fuel := by omega
      obtain ⟨ih1, ih2, ih3, ih4⟩ := ih (n / 16) hfuel
      simp only [toHexNatAux, if_neg h16]
      refine ⟨?_, ?_, ?_, ?_⟩
      · simp
      · intro c hc
        rcases List.mem_append.mp hc with hc | hc
        · exact ih2 c hc
        · simp only [List.mem_singleton] at hc
          subst hc
          exact isHexDigitB_hexChar _ (Nat.mod_lt _ (by norm_num))
      · rw [hexListVal_append_singleton, ih3, hexVal_hexChar _ (Nat.mod_lt _ (by norm_num))]
        omega
      · rw [List.length_append, List.length_singleton, pow_succ]
        have hmod : n % 16 < 16 := Nat.mod_lt _ (by norm_num)
        have hdm : 16 * (n / 16) + n % 16 = n := Nat.div_add_mod n 16
        generalize 16 ^ (toHexNatAux fuel (n / 16)).length = A at ih4
        omega

theorem toHexNat_length_pos (n : Nat) : 1 ≤ (toHexNat n).length :=
  (toHexNatAux_props (n + 1) n (by omega)).1

theorem toHexNat_hex (n : Nat) : ∀ c ∈ toHexNat n, isHexDigitB c = true :=
  (toHexNatAux_props (n + 1) n (by omega)).2.1

theorem hexListVal_toHexNat (n : Nat) : hexListVal (toHexNat n) = n :=
  (toHexNatAux_props (n + 1) n (by omega)).2.2.1

theorem toHexNat_lt (n : Nat) : n < 16 ^ (toHexNat n).length :=
  (toHexNatAux_props (n + 1) n (by omega)).2.2.2

theorem toHexNatAux_congr :
    ∀ f₁ f₂ n, n < f₁ → n < f₂ → toHexNatAux f₁ n = toHexNatAux f₂ n := by
  intro f₁
  induction f₁ with
  | zero => intro f₂ n h; omega
  | succ f₁ ih =>
    intro f₂ n h1 h2
    match f₂, h2 with
    | f₂ + 1, h2 =>
      simp only [toHexNatAux]
      by_cases h16 : n < 16
      · simp [h16]
      · have hpos : 0 < n := by omega
        have hdiv : n / 16 < n := Nat.div_lt_self hpos (by norm_num)
        rw [if_neg h16, if_neg h16, ih f₂ (n / 16) (by omega) (by omega)]

theorem toHexNat_eq (n : Nat) :
    toHexNat n = if n < 16 then [hexChar n] else toHexNat (n / 16) ++ [hexChar (n % 16)] := by
  show toHexNatAux (n + 1) n = _
  by_cases h16 : n < 16
  · simp [toHexNatAux, h16]
  · have hpos : 0 < n := by omega
    have hdiv : n / 16 < n := Nat.div_lt_self hpos (by norm_num)
    simp only [toHexNatAux, if_neg h16]
    rw [toHexNatAux_congr n (n / 16 + 1) (n / 16) (by omega) (by omega)]
    rfl

theorem toHexNat_length_le :
    ∀ w n, 1 ≤ w → n < 16 ^ w → (toHexNat n).length ≤ w := by
  intro w
  induction w with
  | zero => intro n h; omega
  | succ w ih =>
    intro n _ hn
    by_cases h16 : n < 16
    · rw [toHexNat_eq, if_pos h16]
      simp
    · have hw : 1 ≤ w := by
        by_contra hw
        have : w = 0 := by omega
        subst this
        simp at hn
        omega
      rw [toHexNat_eq, if_neg h16, List.length_append, List.length_singleton]
      have hdivlt : n / 16 < 16 ^ w := by
        rw [Nat.div_lt_iff_lt_mul (by norm_num : 0 < 16)]
        calc n < 16 ^ (w + 1) := hn
        _ = 16 ^ w * 16 := by rw [pow_succ]
      have := ih (n / 16) hw hdivlt
      omega

theorem toHexNat_length_ge (k n : Nat) (h : 16 ^ k ≤ n) : k < (toHexNat n).length := by
  have h2 := toHexNat_lt n
  by_contra hlt
  push_neg at hlt
  have : 16 ^ (toHexNat n).length ≤ 16 ^ k :=
    Nat.pow_le_pow_right (by norm_num) hlt
  omega

theorem formatHex_length (w n : Nat) (h1 : 1 ≤ w) (h2 : n < 16 ^ w) :
    (formatHex w n).length = w := by
  have := toHexNat_length_le w n h1 h2
  simp only [formatHex, List.length_append, List.length_replicate]
  omega

theorem formatHex_hex (w n : Nat) : ∀ c ∈ formatHex w n, isHexDigitB c = true := by
  intro c hc
  rcases List.mem_append.mp hc with hc | hc
  · have := List.eq_of_mem_replicate hc
    subst this
    rfl
  · exact toHexNat_hex n c hc

theorem hexListVal_replicate_zero :
    ∀ k, (List.replicate k '0').foldl (fun a c => a * 16 + hexVal c) 0 = 0 := by
  intro k
  induction k with
  | zero => rfl
  | succ k ih =>
    rw [List.replicate_succ, List.foldl_cons]
    simpa using ih

theorem hexListVal_formatHex (w n : Nat) : hexListVal (formatHex w n) = n := by
  show List.foldl _ _ _ = n
  rw [formatHex, List.foldl_append, hexListVal_replicate_zero]
  exact hexListVal_toHexNat n

theorem formatHex_eq_toHexNat (w n : Nat) (h : (toHexNat n).length ≥ w) :
    formatHex w n = toHexNat n := by
  simp only [formatHex]
  rw [Nat.sub_eq_zero_of_le h]
  simp

theorem formatHex_one_lt16 (n : Nat) (h : n < 16) : formatHex 1 n = [hexChar n] := by
  have : toHexNat n = [hexChar n] := by rw [toHexNat_eq, if_pos h]
  simp [formatHex, this]

/-! ## Lemmas: the hand-compiled `CONTENTID_PATTERN` parser -/

theorem takeHex_add (t : List Char) (ht : ∀ c ∈ t, isHexDigitB c = true) :
    ∀ (k : Nat) (r : List Char),
      takeHex (t.length + k) (t ++ r) = (takeHex k r).map (fun p => (t ++ p.1, p.2)) := by
  induction t with
  | nil =>
    intro k r
    simp only [List.length_nil, Nat.zero_add, List.nil_append]
    cases h : takeHex k r with
    | none => simp
    | some p => simp
  | cons c t ih =>
    intro k r
    have hc : isHexDigitB c = true := ht c (by simp)
    have ht' : ∀ x ∈ t, isHexDigitB x = true := fun x hx => ht x (by simp [hx])
    show takeHex (t.length + 1 + k) (c :: (t ++ r)) = _
    have harith : t.length + 1 + k = (t.length + k) + 1 := by omega
    rw [harith]
    simp only [takeHex, if_pos hc, ih ht' k r, Option.map_map]
    cases h : takeHex k r with
    | none => simp
    | some p => simp

theorem takeHex_exact (t : List Char) (ht : ∀ c ∈ t, isHexDigitB c = true) (r : List Char) :
    takeHex t.length (t ++ r) = some (t, r) := by
  have := takeHex_add t ht 0 r
  simpa [takeHex] using this

theorem takeHex_dot (k : Nat) (l : List Char) : takeHex (k + 1) ('.' :: l) = none := by
  simp [takeHex, isHexDigitB]

theorem takeHex_isSome_iff :
    ∀ (k : Nat) (l : List Char),
      (takeHex k l).isSome = true ↔ k ≤ l.length ∧ ∀ c ∈ l.take k, isHexDigitB c = true := by
  intro k
  induction k with
  | zero => intro l; simp [takeHex]
  | succ k ih =>
    intro l
    cases l with
    | nil => simp [takeHex]
    | cons c l =>
      by_cases hc : isHexDigitB c = true
      · simp only [takeHex, if_pos hc]
        have hmap : (Option.map (fun p => (c :: p.1, p.2)) (takeHex k l)).isSome
            = (takeHex k l).isSome := by
          cases takeHex k l <;> rfl
        rw [hmap, ih l]
        simp only [List.length_cons, List.take_succ_cons, List.mem_cons]
        constructor
        · rintro ⟨h1, h2⟩
          refine ⟨by omega, ?_⟩
          rintro x (rfl | hx)
          · exact hc
          · exact h2 x hx
        · rintro ⟨h1, h2⟩
          exact ⟨by omega, fun x hx => h2 x (Or.inr hx)⟩
      · simp only [takeHex, if_neg hc, List.take_succ_cons]
        constructor
        · intro h
          simp at h
        · rintro ⟨h1, h2⟩
          exact absurd (h2 c (by simp)) hc

theorem tryLens_four (t4 : List Char) (c : Char) (h4 : t4.length = 4)
    (hhex : ∀ x ∈ t4, isHexDigitB x = true) (hc : isHexDigitB c = true) :
    tryLens [8, 7, 6, 5, 4] (t4 ++ '.' :: [c]) = some (t4, c, []) := by
  have h8 : takeHex 8 (t4 ++ '.' :: [c]) = none := by
    have := takeHex_add t4 hhex 4 ('.' :: [c])
    rw [h4] at this
    rw [show (8 : Nat) = 4 + 4 by rfl, this, takeHex_dot 3]
    rfl
  have h7 : takeHex 7 (t4 ++ '.' :: [c]) = none := by
    have := takeHex_add t4 hhex 3 ('.' :: [c])
    rw [h4] at this
    rw [show (7 : Nat) = 4 + 3 by rfl, this, takeHex_dot 2]
    rfl
  have h6 : takeHex 6 (t4 ++ '.' :: [c]) = none := by
    have := takeHex_add t4 hhex 2 ('.' :: [c])
    rw [h4] at this
    rw [show (6 : Nat) = 4 + 2 by rfl, this, takeHex_dot 1]
    rfl
  have h5 : takeHex 5 (t4 ++ '.' :: [c]) = none := by
    have := takeHex_add t4 hhex 1 ('.' :: [c])
    rw [h4] at this
    rw [show (5 : Nat) = 4 + 1 by rfl, this, takeHex_dot 0]
    rfl
  have h4' : takeHex 4 (t4 ++ '.' :: [c]) = some (t4, '.' :: [c]) := by
    have := takeHex_exact t4 hhex ('.' :: [c])
    rwa [h4] at this
  simp [tryLens, h8, h7, h6, h5, h4', hc]

theorem tryLens_eight (t8 : List Char) (c : Char) (h8 : t8.length = 8)
    (hhex : ∀ x ∈ t8, isHexDigitB x = true) (hc : isHexDigitB c = true) :
    tryLens [8, 7, 6, 5, 4] (t8 ++ '.' :: [c]) = some (t8, c, []) := by
  have h8' : takeHex 8 (t8 ++ '.' :: [c]) = some (t8, '.' :: [c]) := by
    have := takeHex_exact t8 hhex ('.' :: [c])
    rwa [h8] at this
  simp [tryLens, h8', hc]

theorem contentIdMatchAt_short (ecc eid : Nat) (h1 : ecc < 16 ^ 2) (h2 : eid < 16 ^ 4) :
    contentIdMatchAt (formatHex 2 ecc ++ '.' :: formatHex 4 eid) =
      some (formatHex 2 ecc, formatHex 4 eid, none) := by
  have l2 : (formatHex 2 ecc).length = 2 := formatHex_length 2 ecc (by omega) h1
  have l4 : (formatHex 4 eid).length = 4 := formatHex_length 4 eid (by omega) h2
  have t2 : takeHex 2 (formatHex 2 ecc ++ '.' :: formatHex 4 eid) =
      some (formatHex 2 ecc, '.' :: formatHex 4 eid) := by
    have := takeHex_exact (formatHex 2 ecc) (formatHex_hex 2 ecc) ('.' :: formatHex 4 eid)
    rwa [l2] at this
  have t4 : takeHex 4 (formatHex 4 eid) = some (formatHex 4 eid, []) := by
    have := takeHex_exact (formatHex 4 eid) (formatHex_hex 4 eid) []
    rwa [l4, List.append_nil] at this
  simp [contentIdMatchAt, t2, t4, matchSidTail]

theorem contentIdMatchAt_long (w ecc eid sid scids : Nat)
    (h1 : ecc < 16 ^ 2) (h2 : eid < 16 ^ 4)
    (hw : (formatHex w sid).length = w) (hw48 : w = 4 ∨ w = 8) (h3 : scids < 16) :
    contentIdMatchAt (formatHex 2 ecc ++ '.' :: (formatHex 4 eid ++
        '.' :: (formatHex w sid ++ '.' :: [hexChar scids]))) =
      some (formatHex 2 ecc, formatHex 4 eid, some (formatHex w sid, hexChar scids)) := by
  have l2 : (formatHex 2 ecc).length = 2 := formatHex_length 2 ecc (by omega) h1
  have l4 : (formatHex 4 eid).length = 4 := formatHex_length 4 eid (by omega) h2
  have hc : isHexDigitB (hexChar scids) = true := isHexDigitB_hexChar scids h3
  have t2 : takeHex 2 (formatHex 2 ecc ++ ('.' :: (formatHex 4 eid ++
      '.' :: (formatHex w sid ++ '.' :: [hexChar scids])))) =
      some (formatHex 2 ecc, '.' :: (formatHex 4 eid ++
        '.' :: (formatHex w sid ++ '.' :: [hexChar scids]))) := by
    have := takeHex_exact (formatHex 2 ecc) (formatHex_hex 2 ecc)
      ('.' :: (formatHex 4 eid ++ '.' :: (formatHex w sid ++ '.' :: [hexChar scids])))
    rwa [l2] at this
  have t4 : takeHex 4 (formatHex 4 eid ++ ('.' :: (formatHex w sid ++ '.' :: [hexChar scids]))) =
      some (formatHex 4 eid, '.' :: (formatHex w sid ++ '.' :: [hexChar scids])) := by
    have := takeHex_exact (formatHex 4 eid) (formatHex_hex 4 eid)
      ('.' :: (formatHex w sid ++ '.' :: [hexChar scids]))
    rwa [l4] at this
  have tsid : tryLens [8, 7, 6, 5, 4] (formatHex w sid ++ '.' :: [hexChar scids]) =
      some (formatHex w sid, hexChar scids, []) := by
    rcases hw48 with rfl | rfl
    · exact tryLens_four _ _ hw (formatHex_hex _ sid) hc
    · exact tryLens_eight _ _ hw (formatHex_hex _ sid) hc
  simp [contentIdMatchAt, t2, t4, matchSidTail, tsid]

theorem contentIdSearch_of_matchAt (l : List Char) (g : List Char × List Char × Option (List Char × Char))
    (hne : l ≠ []) (h : contentIdMatchAt l = some g) : contentIdSearch l = some g := by
  cases l with
  | nil => exact absurd rfl hne
  | cons c rest => simp [contentIdSearch, h]

theorem formatHex_ne_nil (w n : Nat) : formatHex w n ≠ [] := by
  intro h
  have h1 := toHexNat_length_pos n
  have : (formatHex w n).length = 0 := by rw [h]; rfl
  simp only [formatHex, List.length_append, List.length_replicate] at this
  omega

/-! ## Lemmas: `ContentId.fromstring` on canonical strings -/

theorem fromstring_canonicalShort (ecc eid : Nat) (h1 : ecc < 16 ^ 2) (h2 : eid < 16 ^ 4) :
    ContentId.fromstring (canonicalShortStr ecc eid) = some ⟨ecc, eid, none, none, none⟩ := by
  have hmatch := contentIdMatchAt_short ecc eid h1 h2
  have hne : formatHex 2 ecc ++ '.' :: formatHex 4 eid ≠ [] := by
    intro h
    exact formatHex_ne_nil 2 ecc (List.append_eq_nil.mp h).1
  have hsearch := contentIdSearch_of_matchAt _ _ hne hmatch
  have hdata : (canonicalShortStr ecc eid).data = formatHex 2 ecc ++ '.' :: formatHex 4 eid := rfl
  unfold ContentId.fromstring
  rw [hdata, hsearch]
  simp [hexListVal_formatHex]

theorem fromstring_canonicalLong (w ecc eid sid scids : Nat)
    (h1 : ecc < 16 ^ 2) (h2 : eid < 16 ^ 4)
    (hw : (formatHex w sid).length = w) (hw48 : w = 4 ∨ w = 8) (h3 : scids < 16) :
    ContentId.fromstring (canonicalLongStr w ecc eid sid scids) =
      some ⟨ecc, eid, some sid, some scids, none⟩ := by
  have hmatch := contentIdMatchAt_long w ecc eid sid scids h1 h2 hw hw48 h3
  have hne : formatHex 2 ecc ++ '.' :: (formatHex 4 eid ++
      '.' :: (formatHex w sid ++ '.' :: [hexChar scids])) ≠ [] := by
    intro h
    exact formatHex_ne_nil 2 ecc (List.append_eq_nil.mp h).1
  have hsearch := contentIdSearch_of_matchAt _ _ hne hmatch
  have hdata : (canonicalLongStr w ecc eid sid scids).data =
      formatHex 2 ecc ++ '.' :: (formatHex 4 eid ++
        '.' :: (formatHex w sid ++ '.' :: [hexChar scids])) := by
    show formatHex 2 ecc ++ '.' :: formatHex 4 eid ++
        '.' :: formatHex w sid ++ '.' :: formatHex 1 scids = _
    rw [formatHex_one_lt16 scids h3]
    simp
  unfold ContentId.fromstring
  rw [hdata, hsearch]
  simp [hexListVal_formatHex, hexVal_hexChar scids h3]

theorem str_canonicalLong_four (ecc eid sid scids : Nat) :
    ContentId.str ⟨ecc, eid, some sid, some scids, none⟩ =
      canonicalLongStr 4 ecc eid sid scids := rfl

theorem str_canonicalLong_eight (ecc eid sid scids : Nat)
    (hs1 : 16 ^ 7 ≤ sid) (hs2 : sid < 16 ^ 8) :
    ContentId.str ⟨ecc, eid, some sid, some scids, none⟩ =
      canonicalLongStr 8 ecc eid sid scids := by
  have hlen : (toHexNat sid).length = 8 := by
    have hle := toHexNat_length_le 8 sid (by omega) hs2
    have hge := toHexNat_length_ge 7 sid hs1
    omega
  have h4 : formatHex 4 sid = toHexNat sid := formatHex_eq_toHexNat 4 sid (by omega)
  have h8 : formatHex 8 sid = toHexNat sid := formatHex_eq_toHexNat 8 sid (by omega)
  show String.mk (contentIdChars ⟨ecc, eid, some sid, some scids, none⟩) = _
  have : contentIdChars ⟨ecc, eid, some sid, some scids, none⟩ =
      formatHex 2 ecc ++ '.' :: formatHex 4 eid ++
        '.' :: formatHex 8 sid ++ '.' :: formatHex 1 scids := by
    show formatHex 2 ecc ++ '.' :: formatHex 4 eid ++
        '.' :: formatHex 4 sid ++ '.' :: formatHex 1 scids = _
    rw [h4, h8]
  rw [this]
  rfl

/-! ## Claim C3 -/

/-- C3 (counterexample): the string `e1.ce15.0000c221.0` is a valid
canonical ContentId string per the claim (sid field zero-padded to the
8-digit width of a 32-bit data-service SId), yet parsing it with
`ContentId.fromstring` and stringifying the result yields
`e1.ce15.c221.0`, not the original string: `'{sid:04x}'` re-pads the sid
field only to 4 digits. -/
theorem C3_contentid_roundtrip_counterexample :
    canonicalLongStr 8 0xe1 0xce15 0xc221 0 = "e1.ce15.0000c221.0"
    ∧ (ContentId.fromstring "e1.ce15.0000c221.0").map ContentId.str = some "e1.ce15.c221.0"
    ∧ "e1.ce15.c221.0" ≠ "e1.ce15.0000c221.0" := by
  refine ⟨by decide, by decide, by decide⟩

/-- C3 (amended): parsing then stringifying is the identity on every valid
canonical ContentId string whose optional sid field is either 4 hex digits
wide, or 8 hex digits wide with a non-zero leading digit (`16^7 ≤ sid`).
The claim fails only for 8-digit sid fields with leading zeros, which the
stringifier re-pads to 4 digits (see the counterexample). -/
theorem C3_contentid_roundtrip_amended :
    (∀ ecc eid : Nat, ecc < 16 ^ 2 → eid < 16 ^ 4 →
      (ContentId.fromstring (canonicalShortStr ecc eid)).map ContentId.str =
        some (canonicalShortStr ecc eid))
    ∧ (∀ ecc eid sid scids : Nat, ecc < 16 ^ 2 → eid < 16 ^ 4 → sid < 16 ^ 4 → scids < 16 →
      (ContentId.fromstring (canonicalLongStr 4 ecc eid sid scids)).map ContentId.str =
        some (canonicalLongStr 4 ecc eid sid scids))
    ∧ (∀ ecc eid sid scids : Nat, ecc < 16 ^ 2 → eid < 16 ^ 4 →
        16 ^ 7 ≤ sid → sid < 16 ^ 8 → scids < 16 →
      (ContentId.fromstring (canonicalLongStr 8 ecc eid sid scids)).map ContentId.str =
        some (canonicalLongStr 8 ecc eid sid scids)) := by
  refine ⟨?_, ?_, ?_⟩
  · intro ecc eid h1 h2
    rw [fromstring_canonicalShort ecc eid h1 h2]
    rfl
  · intro ecc eid sid scids h1 h2 hs h3
    have hw : (formatHex 4 sid).length = 4 := formatHex_length 4 sid (by omega) hs
    rw [fromstring_canonicalLong 4 ecc eid sid scids h1 h2 hw (Or.inl rfl) h3]
    simp [str_canonicalLong_four]
  · intro ecc eid sid scids h1 h2 hs1 hs2 h3
    have hlen : (toHexNat sid).length = 8 := by
      have hle := toHexNat_length_le 8 sid (by omega) hs2
      have hge := toHexNat_length_ge 7 sid hs1
      omega
    have hw : (formatHex 8 sid).length = 8 := by
      rw [formatHex_eq_toHexNat 8 sid (by omega)]
      exact hlen
    rw [fromstring_canonicalLong 8 ecc eid sid scids h1 h2 hw (Or.inr rfl) h3]
    simp [str_canonicalLong_eight ecc eid sid scids hs1 hs2]

/-- C3 (witness): the amended round-trip theorem applied at concrete
canonical strings of all three shapes. -/
theorem C3_contentid_roundtrip_witness :
    (ContentId.fromstring (canonicalShortStr 0xe1 0xce15)).map ContentId.str =
      some (canonicalShortStr 0xe1 0xce15)
    ∧ (ContentId.fromstring (canonicalLongStr 4 0xe1 0xce15 0xc221 0)).map ContentId.str =
      some (canonicalLongStr 4 0xe1 0xce15 0xc221 0)
    ∧ (ContentId.fromstring (canonicalLongStr 8 0xe1 0xce15 0xc0000221 5)).map ContentId.str =
      some (canonicalLongStr 8 0xe1 0xce15 0xc0000221 5) :=
  ⟨C3_contentid_roundtrip_amended.1 0xe1 0xce15 (by decide) (by decide),
   C3_contentid_roundtrip_amended.2.1 0xe1 0xce15 0xc221 0
     (by decide) (by decide) (by decide) (by decide),
   C3_contentid_roundtrip_amended.2.2 0xe1 0xce15 0xc0000221 5
     (by decide) (by decide) (by decide) (by decide) (by decide)⟩

/-! ## Claim C7 -/

theorem triggerMatch_iff (t : String) :
    triggerMatch t = true ↔ 8 ≤ t.length ∧ ∀ c ∈ t.data.take 8, isHexDigitB c = true := by
  show (takeHex 8 t.data).isSome = true ↔ _
  exact takeHex_isSome_iff 8 t.data

/-- C7 (counterexample): the nine-character trigger `"123456789"` is not
exactly 8 hexadecimal characters, yet `Bearer` construction succeeds and
stores it verbatim — `re.match(TRIGGER_PATTERN, trigger)` has no end
anchor, so any string whose first 8 characters are hex digits is
accepted. -/
theorem C7_bearer_trigger_counterexample :
    Bearer.init ⟨0xe1, 0xce15, none, none, none⟩ (some "123456789") =
      some ⟨⟨0xe1, 0xce15, none, none, none⟩, some "123456789"⟩
    ∧ ("123456789" : String).length ≠ 8 := by
  refine ⟨by decide, by decide⟩

/-- C7 (amended): constructing a `Bearer` with trigger `t` succeeds — and
then stores `t` verbatim — iff `t` has at least 8 characters and its first
8 characters are hexadecimal digits; otherwise it fails with a format
error.  (In particular every string of exactly 8 hex digits is accepted
verbatim, as the original claim stated; the failure direction of the
original claim is wrong for longer strings with a valid 8-hex-digit
prefix.) -/
theorem C7_bearer_trigger_amended :
    ∀ (id : ContentId) (t : String),
      (Bearer.init id (some t) = some ⟨id, some t⟩ ↔
        8 ≤ t.length ∧ ∀ c ∈ t.data.take 8, isHexDigitB c = true)
      ∧ (Bearer.init id (some t) = none ↔
        ¬(8 ≤ t.length ∧ ∀ c ∈ t.data.take 8, isHexDigitB c = true)) := by
  intro id t
  rw [← triggerMatch_iff]
  by_cases h : triggerMatch t = true
  · constructor
    · simp [Bearer.init, h]
    · simp [Bearer.init, h]
  · constructor
    · simp only [Bearer.init, if_neg h]
      constructor
      · intro hcontra
        cases hcontra
      · intro htrue
        exact absurd htrue h
    · simp [Bearer.init, h]

/-! ## Claim C8 -/

theorem pyTruthyNat_iff (o : Option Nat) : pyTruthyNat o = true ↔ providedNonzero o := by
  rcases o with _ | n
  · simp [pyTruthyNat, providedNonzero]
  · cases n with
    | zero => simp [pyTruthyNat, providedNonzero]
    | succ n => simp [pyTruthyNat, providedNonzero]

/-- C8 (counterexample): with a non-unrestricted logo type and
`height = width = 0` — both dimensions provided — construction succeeds,
although the claim requires it to fail whenever either dimension is
provided; and with the unrestricted type and `height = 0, width = 32` —
both provided — construction fails, although the claim requires success.
Python truthiness treats a provided `0` like an absent value. -/
theorem C8_multimedia_dimensions_counterexample :
    Multimedia.init "logo.png" LOGO_MONO_SQUARE none (some 0) (some 0) =
      some ⟨"logo.png", LOGO_MONO_SQUARE, none, some 0, some 0⟩
    ∧ Multimedia.init "logo.png" LOGO_UNRESTRICTED none (some 0) (some 32) = none := by
  refine ⟨by decide, by decide⟩

/-- C8 (amended): construction of a `Multimedia` succeeds — storing the
given fields — iff either the type is `logo_unrestricted` and both height
and width are provided with non-zero values, or the type is anything else
and neither height nor width is provided with a non-zero value; otherwise
it fails.  (The original claim's "provided" must be weakened to "provided
and non-zero", because Python truthiness treats `0` as absent.) -/
theorem C8_multimedia_dimensions_amended :
    ∀ (url ty : String) (mt : Option String) (h w : Option Nat),
      (Multimedia.init url ty mt h w = some ⟨url, ty, mt, h, w⟩ ↔
        ((ty = LOGO_UNRESTRICTED ∧ providedNonzero h ∧ providedNonzero w) ∨
         (ty ≠ LOGO_UNRESTRICTED ∧ ¬providedNonzero h ∧ ¬providedNonzero w)))
      ∧ (Multimedia.init url ty mt h w = none ↔
        ¬((ty = LOGO_UNRESTRICTED ∧ providedNonzero h ∧ providedNonzero w) ∨
          (ty ≠ LOGO_UNRESTRICTED ∧ ¬providedNonzero h ∧ ¬providedNonzero w))) := by
  intro url ty mt h w
  rw [← pyTruthyNat_iff, ← pyTruthyNat_iff]
  by_cases hty : ty = LOGO_UNRESTRICTED
  · subst hty
    by_cases hh : pyTruthyNat h = true <;> by_cases hw : pyTruthyNat w = true <;>
      simp [Multimedia.init, hh, hw]
  · have hbeq : (ty == LOGO_UNRESTRICTED) = false := by
      simp [hty]
    by_cases hh : pyTruthyNat h = true <;> by_cases hw : pyTruthyNat w = true <;>
      simp [Multimedia.init, hbeq, hh, hw, hty]

/-! ## Lemmas: the `get_scope` fold -/

theorem billedStarts_append (a b : List BTime) :
    billedStarts (a ++ b) = billedStarts a ++ billedStarts b := by
  simp [billedStarts]

theorem billedEnds_append (a b : List BTime) :
    billedEnds (a ++ b) = billedEnds a ++ billedEnds b := by
  simp [billedEnds]

theorem foldl_scopeTimeStep (ts : List BTime) :
    ∀ acc : ScopeAcc,
      ts.foldl scopeTimeStep acc =
        ⟨(billedStarts ts).foldl optMinStep acc.start,
         (billedEnds ts).foldl optMaxStep acc.stop,
         acc.services⟩ := by
  induction ts with
  | nil => intro acc; simp [billedStarts, billedEnds]
  | cons t ts ih =>
    intro acc
    cases t with
    | rel r =>
      rw [List.foldl_cons]
      have hstep : scopeTimeStep acc (BTime.rel r) = acc := rfl
      rw [hstep, ih acc]
      simp [billedStarts, billedEnds, btimeAbs]
    | abs t =>
      rw [List.foldl_cons]
      have hstep : scopeTimeStep acc (BTime.abs t) =
          ⟨optMinStep acc.start t.billed_time,
           optMaxStep acc.stop (t.billed_time + t.billed_duration),
           acc.services⟩ := by
        cases hs : acc.start <;> cases he : acc.stop <;>
          simp [scopeTimeStep, optMinStep, optMaxStep, hs, he]
      rw [hstep, ih]
      simp [billedStarts, billedEnds, btimeAbs]

theorem foldl_scopeBearerStep (bs : List LocBearer) :
    ∀ acc : ScopeAcc,
      bs.foldl scopeBearerStep acc =
        ⟨acc.start, acc.stop, (bs.map locBearerId).foldl dedupStep acc.services⟩ := by
  induction bs with
  | nil => intro acc; rfl
  | cons b bs ih =>
    intro acc
    rw [List.foldl_cons]
    have hstep : scopeBearerStep acc b =
        ⟨acc.start, acc.stop, dedupStep acc.services (locBearerId b)⟩ := by
      cases b with
      | br b => simp only [scopeBearerStep, dedupStep, locBearerId]; split <;> rfl
      | cid c => simp only [scopeBearerStep, dedupStep, locBearerId]; split <;> rfl
    rw [hstep, ih]
    rfl

theorem foldl_locations (locs : List Location) :
    ∀ acc : ScopeAcc,
      locs.foldl (fun acc location =>
          location.bearers.foldl scopeBearerStep
            (location.times.foldl scopeTimeStep acc)) acc =
        ⟨(billedStarts (locs.flatMap (fun l => l.times))).foldl optMinStep acc.start,
         (billedEnds (locs.flatMap (fun l => l.times))).foldl optMaxStep acc.stop,
         ((locs.flatMap (fun l => l.bearers)).map locBearerId).foldl dedupStep acc.services⟩ := by
  induction locs with
  | nil => intro acc; simp [billedStarts, billedEnds]
  | cons l locs ih =>
    intro acc
    rw [List.foldl_cons, foldl_scopeTimeStep, foldl_scopeBearerStep, ih]
    simp [billedStarts_append, billedEnds_append, List.foldl_append]

theorem foldl_programmes (progs : List Programme) :
    ∀ acc : ScopeAcc,
      progs.foldl (fun acc programme =>
          programme.locations.foldl (fun acc location =>
            location.bearers.foldl scopeBearerStep
              (location.times.foldl scopeTimeStep acc)) acc) acc =
        ⟨(billedStarts (progs.flatMap (fun p => p.locations.flatMap (fun l => l.times)))).foldl
            optMinStep acc.start,
         (billedEnds (progs.flatMap (fun p => p.locations.flatMap (fun l => l.times)))).foldl
            optMaxStep acc.stop,
         ((progs.flatMap (fun p => p.locations.flatMap (fun l => l.bearers))).map
            locBearerId).foldl dedupStep acc.services⟩ := by
  induction progs with
  | nil => intro acc; simp [billedStarts, billedEnds]
  | cons p progs ih =>
    intro acc
    rw [List.foldl_cons, foldl_locations, ih]
    simp [billedStarts_append, billedEnds_append, List.foldl_append]

theorem get_scope_eq (s : Schedule) :
    s.get_scope =
      (match (billedStarts (scheduleBTimes s)).foldl optMinStep none,
             (billedEnds (scheduleBTimes s)).foldl optMaxStep none with
       | some st, some en => some ⟨st, en, scheduleServices s⟩
       | _, _ => none) := by
  unfold Schedule.get_scope
  rw [foldl_programmes]
  rfl

theorem foldl_optMinStep_some (l : List Int) :
    ∀ a : Int, ∃ m, l.foldl optMinStep (some a) = some m
      ∧ (m = a ∨ m ∈ l) ∧ m ≤ a ∧ ∀ x ∈ l, m ≤ x := by
  induction l with
  | nil => intro a; exact ⟨a, rfl, Or.inl rfl, le_refl a, by simp⟩
  | cons x l ih =>
    intro a
    rw [List.foldl_cons]
    have hstep : optMinStep (some a) x = some (if a > x then x else a) := by
      show (if a > x then some x else some a) = _
      split <;> rfl
    rw [hstep]
    obtain ⟨m, hm, hmem, hle, hall⟩ := ih (if a > x then x else a)
    refine ⟨m, hm, ?_, ?_, ?_⟩
    · rcases hmem with rfl | hm2
      · by_cases hax : a > x
        · simp only [if_pos hax]
          exact Or.inr (by simp)
        · simp only [if_neg hax]
          simp
      · exact Or.inr (List.mem_cons_of_mem x hm2)
    · have : (if a > x then x else a) ≤ a := by split <;> omega
      omega
    · intro y hy
      rcases List.mem_cons.mp hy with rfl | hy
      · have : (if a > y then y else a) ≥ m := by omega
        split at this <;> omega
      · exact hall y hy

theorem foldl_optMinStep_ne_nil (l : List Int) (h : l ≠ []) :
    ∃ m, l.foldl optMinStep none = some m ∧ m ∈ l ∧ ∀ x ∈ l, m ≤ x := by
  cases l with
  | nil => exact absurd rfl h
  | cons x l =>
    rw [List.foldl_cons]
    obtain ⟨m, hm, hmem, hle, hall⟩ := foldl_optMinStep_some l x
    refine ⟨m, hm, ?_, ?_⟩
    · rcases hmem with rfl | hm2
      · simp
      · exact List.mem_cons_of_mem x hm2
    · intro y hy
      rcases List.mem_cons.mp hy with rfl | hy
      · exact hle
      · exact hall y hy

theorem foldl_optMaxStep_some (l : List Int) :
    ∀ a : Int, ∃ m, l.foldl optMaxStep (some a) = some m
      ∧ (m = a ∨ m ∈ l) ∧ a ≤ m ∧ ∀ x ∈ l, x ≤ m := by
  induction l with
  | nil => intro a; exact ⟨a, rfl, Or.inl rfl, le_refl a, by simp⟩
  | cons x l ih =>
    intro a
    rw [List.foldl_cons]
    have hstep : optMaxStep (some a) x = some (if a < x then x else a) := by
      show (if a < x then some x else some a) = _
      split <;> rfl
    rw [hstep]
    obtain ⟨m, hm, hmem, hle, hall⟩ := ih (if a < x then x else a)
    refine ⟨m, hm, ?_, ?_, ?_⟩
    · rcases hmem with rfl | hm2
      · by_cases hax : a < x
        · simp only [if_pos hax]
          exact Or.inr (by simp)
        · simp only [if_neg hax]
          simp
      · exact Or.inr (List.mem_cons_of_mem x hm2)
    · have : a ≤ (if a < x then x else a) := by split <;> omega
      omega
    · intro y hy
      rcases List.mem_cons.mp hy with rfl | hy
      · have : (if a < y then y else a) ≤ m := by omega
        split at this <;> omega
      · exact hall y hy

theorem foldl_optMaxStep_ne_nil (l : List Int) (h : l ≠ []) :
    ∃ m, l.foldl optMaxStep none = some m ∧ m ∈ l ∧ ∀ x ∈ l, x ≤ m := by
  cases l with
  | nil => exact absurd rfl h
  | cons x l =>
    rw [List.foldl_cons]
    obtain ⟨m, hm, hmem, hle, hall⟩ := foldl_optMaxStep_some l x
    refine ⟨m, hm, ?_, ?_⟩
    · rcases hmem with rfl | hm2
      · simp
      · exact List.mem_cons_of_mem x hm2
    · intro y hy
      rcases List.mem_cons.mp hy with rfl | hy
      · exact hle
      · exact hall y hy

theorem billedStarts_scheduleBTimes (s : Schedule) :
    billedStarts (scheduleBTimes s) = (scheduleAbsTimes s).map (fun t => t.billed_time) := rfl

theorem billedEnds_scheduleBTimes (s : Schedule) :
    billedEnds (scheduleBTimes s) =
      (scheduleAbsTimes s).map (fun t => t.billed_time + t.billed_duration) := rfl

/-! ## Claim C1 -/

/-- C1: for every `Schedule` whose programmes contain at least one absolute
`Time`, `get_scope()` returns a `Scope` whose `start` is the minimum billed
start instant over every absolute time of every location of every
programme (relative times skipped), whose `end` is the maximum of billed
start plus billed duration over the same set, and whose `services` list is
the list of bearer identifiers referenced by any location, deduplicated by
canonical identifier string in first-seen insertion order. -/
theorem C1_get_scope_minmax (s : Schedule) (h : scheduleAbsTimes s ≠ []) :
    ∃ st en, s.get_scope = some ⟨st, en, scheduleServices s⟩
      ∧ st ∈ (scheduleAbsTimes s).map (fun t => t.billed_time)
      ∧ (∀ x ∈ (scheduleAbsTimes s).map (fun t => t.billed_time), st ≤ x)
      ∧ en ∈ (scheduleAbsTimes s).map (fun t => t.billed_time + t.billed_duration)
      ∧ (∀ x ∈ (scheduleAbsTimes s).map (fun t => t.billed_time + t.billed_duration), x ≤ en) := by
  have hne1 : billedStarts (scheduleBTimes s) ≠ [] := by
    rw [billedStarts_scheduleBTimes]
    simpa using h
  have hne2 : billedEnds (scheduleBTimes s) ≠ [] := by
    rw [billedEnds_scheduleBTimes]
    simpa using h
  obtain ⟨st, hst, hstmem, hstall⟩ := foldl_optMinStep_ne_nil _ hne1
  obtain ⟨en, hen, henmem, henall⟩ := foldl_optMaxStep_ne_nil _ hne2
  refine ⟨st, en, ?_, ?_, ?_, ?_, ?_⟩
  · rw [get_scope_eq, hst, hen]
  · rw [← billedStarts_scheduleBTimes]; exact hstmem
  · rw [← billedStarts_scheduleBTimes]; exact hstall
  · rw [← billedEnds_scheduleBTimes]; exact henmem
  · rw [← billedEnds_scheduleBTimes]; exact henall

/-- C1 (witness): the spec's own example — one programme with one absolute
time starting at instant 1704067200 (2024-01-01T00:00:00Z as epoch
seconds) with a 30-minute (1800 s) duration — evaluated through the
theorem. -/
theorem C1_get_scope_minmax_witness :
    ∃ st en,
      (Schedule.mk 0 1 none
        [⟨1, none, some 1, none, true, true, [],
          [⟨[BTime.abs ⟨1704067200, 1800, none, none⟩],
            [LocBearer.cid ⟨0xe1, 0xce15, some 0xc221, some 0, none⟩]⟩],
          [], [], [], [], [], []⟩]).get_scope =
        some ⟨st, en, scheduleServices (Schedule.mk 0 1 none
          [⟨1, none, some 1, none, true, true, [],
            [⟨[BTime.abs ⟨1704067200, 1800, none, none⟩],
              [LocBearer.cid ⟨0xe1, 0xce15, some 0xc221, some 0, none⟩]⟩],
            [], [], [], [], [], []⟩])⟩
      ∧ st ∈ (scheduleAbsTimes (Schedule.mk 0 1 none
          [⟨1, none, some 1, none, true, true, [],
            [⟨[BTime.abs ⟨1704067200, 1800, none, none⟩],
              [LocBearer.cid ⟨0xe1, 0xce15, some 0xc221, some 0, none⟩]⟩],
            [], [], [], [], [], []⟩])).map (fun t => t.billed_time)
      ∧ (∀ x ∈ (scheduleAbsTimes (Schedule.mk 0 1 none
          [⟨1, none, some 1, none, true, true, [],
            [⟨[BTime.abs ⟨1704067200, 1800, none, none⟩],
              [LocBearer.cid ⟨0xe1, 0xce15, some 0xc221, some 0, none⟩]⟩],
            [], [], [], [], [], []⟩])).map (fun t => t.billed_time), st ≤ x)
      ∧ en ∈ (scheduleAbsTimes (Schedule.mk 0 1 none
          [⟨1, none, some 1, none, true, true, [],
            [⟨[BTime.abs ⟨1704067200, 1800, none, none⟩],
              [LocBearer.cid ⟨0xe1, 0xce15, some 0xc221, some 0, none⟩]⟩],
            [], [], [], [], [], []⟩])).map (fun t => t.billed_time + t.billed_duration)
      ∧ (∀ x ∈ (scheduleAbsTimes (Schedule.mk 0 1 none
          [⟨1, none, some 1, none, true, true, [],
            [⟨[BTime.abs ⟨1704067200, 1800, none, none⟩],
              [LocBearer.cid ⟨0xe1, 0xce15, some 0xc221, some 0, none⟩]⟩],
            [], [], [], [], [], []⟩])).map (fun t => t.billed_time + t.billed_duration),
          x ≤ en) :=
  C1_get_scope_minmax _ (by decide)

/-! ## Claim C5 -/

/-- C5: for every `Schedule` with zero programmes, or whose programmes'
locations contain only relative times (no absolute `Time` anywhere),
`get_scope()` returns `None` rather than raising, and the marshalled
`schedule` element contains no `scope` child at all. -/
theorem C5_scope_absent (e : Epg) (h : scheduleAbsTimes e.schedule = []) :
    e.schedule.get_scope = none
    ∧ ∀ c ∈ (build_schedule_tree e.schedule).childrenOf, c.tagOf ≠ "scope" := by
  have hscope : e.schedule.get_scope = none := by
    rw [get_scope_eq, billedStarts_scheduleBTimes, h]
    rfl
  refine ⟨hscope, ?_⟩
  intro c hc
  simp only [build_schedule_tree, hscope, XNode.childrenOf, List.nil_append] at hc
  obtain ⟨p, _, rfl⟩ := List.mem_map.mp hc
  simp [build_programme_tree, XNode.tagOf]

/-! ## Lemmas: `mapOption` -/

theorem mapOption_forall₂ {α β : Type} (f : α → Option β) :
    ∀ (l : List α) (bs : List β), mapOption f l = some bs →
      List.Forall₂ (fun a b => f a = some b) l bs := by
  intro l
  induction l with
  | nil =>
    intro bs h
    simp only [mapOption, Option.some.injEq] at h
    subst h
    exact List.Forall₂.nil
  | cons a l ih =>
    intro bs h
    simp only [mapOption] at h
    cases hfa : f a with
    | none => rw [hfa] at h; cases h
    | some b =>
      rw [hfa] at h
      obtain ⟨bs', hbs', rfl⟩ := Option.map_eq_some'.mp h
      exact List.Forall₂.cons hfa (ih bs' hbs')

theorem mapOption_mem {α β : Type} (f : α → Option β) :
    ∀ (l : List α) (bs : List β), mapOption f l = some bs →
      ∀ b ∈ bs, ∃ a ∈ l, f a = some b := by
  intro l
  induction l with
  | nil =>
    intro bs h
    simp only [mapOption, Option.some.injEq] at h
    subst h
    simp
  | cons a l ih =>
    intro bs h
    simp only [mapOption] at h
    cases hfa : f a with
    | none => rw [hfa] at h; cases h
    | some b0 =>
      rw [hfa] at h
      obtain ⟨bs', hbs', rfl⟩ := Option.map_eq_some'.mp h
      intro b hb
      rcases List.mem_cons.mp hb with rfl | hb
      · exact ⟨a, by simp, hfa⟩
      · obtain ⟨a', ha', hfa'⟩ := ih bs' hbs' b hb
        exact ⟨a', by simp [ha'], hfa'⟩

theorem mapOption_eq_none_of_mem {α β : Type} (f : α → Option β) :
    ∀ (l : List α) (a : α), a ∈ l → f a = none → mapOption f l = none := by
  intro l
  induction l with
  | nil => intro a h; cases h
  | cons b l ih =>
    intro a ha hfa
    rcases List.mem_cons.mp ha with rfl | ha
    · simp [mapOption, hfa]
    · simp only [mapOption]
      cases hfb : f b with
      | none => rfl
      | some v => rw [ih a ha hfa]; rfl

/-! ## Claim C10 -/

/-- C10: for every `Location` constructed with a bearers argument, every
element of the resulting `Location.bearers` collection is a `ContentId`:
any passed bearer that is not already a `ContentId` (including a `Bearer`
carrying a trigger) is replaced by `ContentId.fromstring` applied to its
string form, so a `Bearer`'s trigger is never retained inside a `Location`
and never reachable from it. -/
theorem C10_location_bearers_contentid (times : List BTime) (bargs : List BearerArg)
    (loc : Location) (h : Location.init times bargs = some loc) :
    loc.times = times
    ∧ List.Forall₂ (fun a b =>
        match a with
        | BearerArg.cid c => b = LocBearer.cid c
        | a => ∃ c, ContentId.fromstring (bearerArgStr a) = some c ∧ b = LocBearer.cid c)
        bargs loc.bearers
    ∧ ∀ b ∈ loc.bearers, ∃ c, b = LocBearer.cid c := by
  unfold Location.init at h
  obtain ⟨bs, hbs, rfl⟩ := Option.map_eq_some'.mp h
  refine ⟨rfl, ?_, ?_⟩
  · have h2 := mapOption_forall₂ _ bargs bs hbs
    refine List.Forall₂.imp ?_ h2
    intro a b hab
    cases a with
    | cid c =>
      simp only [Option.some.injEq] at hab
      exact hab.symm
    | br b' =>
      obtain ⟨c, hc, rfl⟩ := Option.map_eq_some'.mp hab
      exact ⟨c, hc, rfl⟩
    | str s =>
      obtain ⟨c, hc, rfl⟩ := Option.map_eq_some'.mp hab
      exact ⟨c, hc, rfl⟩
  · intro b hb
    obtain ⟨a, _, hfa⟩ := mapOption_mem _ bargs bs hbs b hb
    cases a with
    | cid c =>
      simp only [Option.some.injEq] at hfa
      exact ⟨c, hfa.symm⟩
    | br b' =>
      obtain ⟨c, _, rfl⟩ := Option.map_eq_some'.mp hfa
      exact ⟨c, rfl⟩
    | str s =>
      obtain ⟨c, _, rfl⟩ := Option.map_eq_some'.mp hfa
      exact ⟨c, rfl⟩

/-- C10 (witness): a location constructed from a full `Bearer` (with
trigger) and a bearer string, evaluated through the theorem. -/
theorem C10_location_bearers_contentid_witness :
    (Location.mk []
        [LocBearer.cid ⟨0xe1, 0xce15, some 0xc221, some 0, none⟩,
         LocBearer.cid ⟨0xe1, 0xce15, none, none, none⟩]).times = []
    ∧ List.Forall₂ (fun a b =>
        match a with
        | BearerArg.cid c => b = LocBearer.cid c
        | a => ∃ c, ContentId.fromstring (bearerArgStr a) = some c ∧ b = LocBearer.cid c)
        [BearerArg.br ⟨⟨0xe1, 0xce15, some 0xc221, some 0, none⟩, some "abcdef01"⟩,
         BearerArg.str "e1.ce15"]
        (Location.mk []
          [LocBearer.cid ⟨0xe1, 0xce15, some 0xc221, some 0, none⟩,
           LocBearer.cid ⟨0xe1, 0xce15, none, none, none⟩]).bearers
    ∧ ∀ b ∈ (Location.mk []
        [LocBearer.cid ⟨0xe1, 0xce15, some 0xc221, some 0, none⟩,
         LocBearer.cid ⟨0xe1, 0xce15, none, none, none⟩]).bearers,
        ∃ c, b = LocBearer.cid c :=
  C10_location_bearers_contentid []
    [BearerArg.br ⟨⟨0xe1, 0xce15, some 0xc221, some 0, none⟩, some "abcdef01"⟩,
     BearerArg.str "e1.ce15"] _ (by decide)

/-! ## Lemmas: attribute bookkeeping for the tree marshaller -/

theorem attrsOf_appendChild (x n : XNode) : (x.appendChild n).attrsOf = x.attrsOf := by
  cases x <;> rfl

theorem attrsOf_freqFold (freqs : List Nat) :
    ∀ el : XNode,
      (freqs.foldl (fun el f =>
        let ftype := if (XNode.getElementsByTagName "frequency" el).length = 0
                     then "primary" else "secondary"
        el.appendChild (XNode.elem "frequency" [("type", ftype), ("kHz", toString f)] [])) el).attrsOf
      = el.attrsOf := by
  induction freqs with
  | nil => intro el; rfl
  | cons f freqs ih =>
    intro el
    rw [List.foldl_cons, ih, attrsOf_appendChild]

/-! ## Claim C2 -/

/-- C2 (counterexample): the `schedule` element always carries a `version`
attribute — `marshall_epg` sets it unconditionally — so a schedule with the
default version 1 emits `version="1"`, contradicting the claim that the
omit-if-default policy applies to the Schedule element. -/
theorem C2_version_policy_counterexample :
    ("version", "1") ∈ (build_schedule_tree ⟨0, 1, none, []⟩).attrsOf := by
  decide

/-- C2 (amended): the omit-version-when-1 policy holds for the
`serviceInformation` root element and for `ensemble` elements (and a
ServiceInfo with version 2 emits `version="2"`); but the `schedule` element
always emits its `version` attribute, and marshalling a `ServiceInfo`
whose ensembles contain any `Service` fails outright (the source reads
`service.id`, an attribute `Service.__init__` never sets — it stores
`ids`), so no `service` element is ever emitted. -/
theorem C2_version_policy_amended :
    (∀ (info : ServiceInfo) (el : XNode), marshall_serviceinfo_tree info = some el →
      ((∃ v, ("version", v) ∈ el.attrsOf) ↔ 1 < info.version)
      ∧ (1 < info.version → ("version", toString info.version) ∈ el.attrsOf))
    ∧ (∀ (ensemble : Ensemble) (el : XNode), build_ensemble_tree ensemble = some el →
      ((∃ v, ("version", v) ∈ el.attrsOf) ↔ 1 < ensemble.version)
      ∧ (1 < ensemble.version → ("version", toString ensemble.version) ∈ el.attrsOf))
    ∧ (∀ info : ServiceInfo, (∃ e ∈ info.ensembles, e.services ≠ []) →
      marshall_serviceinfo_tree info = none)
    ∧ (∀ schedule : Schedule,
      ("version", toString schedule.version) ∈ (build_schedule_tree schedule).attrsOf) := by
  refine ⟨?_, ?_, ?_, ?_⟩
  · rintro ⟨created, version, originator, provider, ty, ensembles⟩ el h
    obtain ⟨ens, _, rfl⟩ := Option.map_eq_some'.mp h
    rcases originator with _ | o <;> rcases provider with _ | pr <;>
      by_cases hv : 1 < version <;>
      simp [XNode.attrsOf, epgNsAttrs, hv]
  · rintro ⟨id, version, names, media, keywords, links, frequencies, ca, services⟩ el h
    cases services with
    | cons s ss => cases h
    | nil =>
      simp only [build_ensemble_tree, Option.some.injEq] at h
      subst h
      rw [attrsOf_freqFold]
      by_cases hv : 1 < version <;> simp [XNode.attrsOf, hv]
  · intro info ⟨e, he, hne⟩
    have hnone : build_ensemble_tree e = none := by
      unfold build_ensemble_tree
      cases hs : e.services with
      | nil => exact absurd hs hne
      | cons s ss => rfl
    unfold marshall_serviceinfo_tree
    rw [mapOption_eq_none_of_mem _ info.ensembles e he hnone]
    rfl
  · intro schedule
    simp [build_schedule_tree, XNode.attrsOf]

/-- C2 (witness): the amended theorem applied to a `ServiceInfo` with
version 2 and no ensembles, and to a `ServiceInfo` whose single ensemble
carries one `Service` (which makes marshalling fail). -/
theorem C2_version_policy_witness :
    (((∃ v, ("version", v) ∈ (XNode.elem "serviceInformation"
        ((if 1 < (2 : Nat) then [("version", toString (2 : Nat))] else [])
         ++ [("creationTime", isoInstant 0)] ++ [] ++ []
         ++ [("system", "DAB")] ++ epgNsAttrs) []).attrsOf) ↔ 1 < (2 : Nat))
      ∧ (1 < (2 : Nat) → ("version", toString (2 : Nat)) ∈ (XNode.elem "serviceInformation"
        ((if 1 < (2 : Nat) then [("version", toString (2 : Nat))] else [])
         ++ [("creationTime", isoInstant 0)] ++ [] ++ []
         ++ [("system", "DAB")] ++ epgNsAttrs) []).attrsOf))
    ∧ marshall_serviceinfo_tree
        ⟨0, 1, none, none, "DAB",
         [⟨⟨0xe1, 0xce15, none, none, none⟩, 1, [], [], [], [], [], none,
           [⟨[⟨0xe1, 0xce15, some 0xc221, some 0, none⟩], none, "primary", "audio", 1,
             [], [], [], [], [], []⟩]⟩]⟩ = none :=
  ⟨C2_version_policy_amended.1 ⟨0, 2, none, none, "DAB", []⟩ _ rfl,
   C2_version_policy_amended.2.2.1
     ⟨0, 1, none, none, "DAB",
      [⟨⟨0xe1, 0xce15, none, none, none⟩, 1, [], [], [], [], [], none,
        [⟨[⟨0xe1, 0xce15, some 0xc221, some 0, none⟩], none, "primary", "audio", 1,
          [], [], [], [], [], []⟩]⟩]⟩
     ⟨⟨⟨0xe1, 0xce15, none, none, none⟩, 1, [], [], [], [], [], none,
       [⟨[⟨0xe1, 0xce15, some 0xc221, some 0, none⟩], none, "primary", "audio", 1,
         [], [], [], [], [], []⟩]⟩, by simp, by simp⟩⟩

/-! ## Claim C4 -/

/-- C4: on `programme` elements the `broadcast` attribute is emitted iff
`onair` is false, always with value `off-air` — but on `programmeEvent`
elements it is never emitted at all: the source condition
`if not event.onair is not None:` parses as `if event.onair is None:`,
which no boolean value satisfies.  The final conjunct evaluates the code
at the failing input (an off-air event), showing no `broadcast` attribute
where the claim requires one. -/
theorem C4_broadcast_attr :
    (∀ (p : Programme) (v : String),
      ("broadcast", v) ∈ (build_programme_tree p).attrsOf ↔ (p.onair = false ∧ v = "off-air"))
    ∧ (∀ (ev : ProgrammeEvent) (v : String),
      ("broadcast", v) ∉ (build_programme_event_tree ev).attrsOf)
    ∧ (build_programme_event_tree
        ⟨some 1, none, none, none, none, false, false, [], [], [], [], [], [], []⟩).attrsOf
      = [("shortId", "1")] := by
  refine ⟨?_, ?_, by decide⟩
  · rintro ⟨sc, crid, ver, bitrate, onair, rec, names, locations, media, genres,
      keywords, memberships, links, events⟩ v
    rcases crid with _ | c <;> rcases ver with _ | vv <;> rcases bitrate with _ | b <;>
      cases onair <;> cases rec <;>
      simp [build_programme_tree, XNode.attrsOf]
  · rintro ⟨sc, orig, crid, ver, bitrate, onair, rec, names, locations, media, genres,
      keywords, memberships, links⟩ v
    rcases sc with _ | s <;> rcases crid with _ | c <;> rcases ver with _ | vv <;>
      rcases bitrate with _ | b <;> cases rec <;>
      simp [build_programme_event_tree, XNode.attrsOf]

/-! ## Claim C6 -/

/-- C6: `get_iso_period` renders exactly the claim's format — days, hours,
minutes, seconds in that order, each emitted only if non-zero, the `T`
designator always present, explicit `0S` when hours, minutes and seconds
are all zero — together with the claim's three examples. -/
theorem C6_iso_period :
    (∀ (d : Int) (h m s : Nat), 0 ≤ d → h < 24 → m < 60 → s < 60 →
      get_iso_period ⟨d, h * 3600 + m * 60 + s⟩ = iso_period_claim d h m s)
    ∧ get_iso_period (timedeltaOfSeconds 0) = "PT0S"
    ∧ get_iso_period (timedeltaOfSeconds 90) = "PT1M30S"
    ∧ get_iso_period (timedeltaOfSeconds 86400) = "P1DT0S" := by
  refine ⟨?_, by decide, by decide, by decide⟩
  intro d h m s hd hh hm hs
  have e1 : (h * 3600 + m * 60 + s) / (60 * 60) = h := by omega
  unfold get_iso_period iso_period_claim
  simp only [e1]
  have e2 : (h * 3600 + m * 60 + s - h * 60 * 60) / 60 = m := by omega
  simp only [e2]
  have e3 : h * 3600 + m * 60 + s - h * 60 * 60 - m * 60 = s := by omega
  simp only [e3]
  have hdd : (d > 0) = (d ≠ 0) := by
    apply propext
    omega
  have hhh : (h > 0) = (h ≠ 0) := by
    apply propext
    omega
  have hmm' : (m > 0) = (m ≠ 0) := by
    apply propext
    omega
  have hss : (s > 0) = (s ≠ 0) := by
    apply propext
    omega
  simp only [hdd, hhh, hmm', hss]

/-- C6 (witness): the structural part of the theorem applied at 1 minute
30 seconds. -/
theorem C6_iso_period_witness :
    get_iso_period ⟨0, 0 * 3600 + 1 * 60 + 30⟩ = iso_period_claim 0 0 1 30 :=
  C6_iso_period.1 0 0 1 30 (by decide) (by decide) (by decide) (by decide)

/-! ## Lemmas: trace-builder infrastructure (claim C9) -/

theorem emitsFrom_id (lo : Nat) (parents : List Nat) :
    EmitsFrom lo parents (fun s => s) := by
  intro s _
  exact ⟨le_refl _, [], by simp, by simp, by simp, by simp⟩

theorem emitsFrom_comp (lo : Nat) (parents : List Nat) (g1 g2 : TState → TState)
    (h1 : EmitsFrom lo parents g1) (h2 : EmitsFrom lo parents g2) :
    EmitsFrom lo parents (fun s => g2 (g1 s)) := by
  intro s hs
  show s.nextId ≤ (g2 (g1 s)).nextId ∧ ∃ Δ, (g2 (g1 s)).trace = s.trace ++ Δ
    ∧ (∀ ev ∈ Δ, ∀ i ∈ evIds ev, (s.nextId ≤ i ∧ i < (g2 (g1 s)).nextId) ∨ i ∈ parents)
    ∧ (∀ ev ∈ Δ, ∀ p ∈ parents, ev ≠ TEvent.callback p ∧ ∀ q, ev ≠ TEvent.attach q p)
    ∧ (∀ ev ∈ Δ, ∀ i, ev ≠ TEvent.create i "programme")
  obtain ⟨ha1, Δ1, ha2, ha3, ha4, ha5⟩ := h1 s hs
  obtain ⟨hb1, Δ2, hb2, hb3, hb4, hb5⟩ := h2 (g1 s) (by omega)
  refine ⟨by omega, Δ1 ++ Δ2, ?_, ?_, ?_, ?_⟩
  · rw [hb2, ha2, List.append_assoc]
  · intro ev hev i hi
    rcases List.mem_append.mp hev with h | h
    · rcases ha3 ev h i hi with ⟨hge, hlt⟩ | hp
      · exact Or.inl ⟨hge, by omega⟩
      · exact Or.inr hp
    · rcases hb3 ev h i hi with ⟨hge, hlt⟩ | hp
      · exact Or.inl ⟨by omega, hlt⟩
      · exact Or.inr hp
  · intro ev hev p hp
    rcases List.mem_append.mp hev with h | h
    · exact ha4 ev h p hp
    · exact hb4 ev h p hp
  · intro ev hev i
    rcases List.mem_append.mp hev with h | h
    · exact ha5 ev h i
    · exact hb5 ev h i

theorem emitsFrom_foldl {α : Type} (lo : Nat) (parents : List Nat) (f : TState → α → TState)
    (hf : ∀ a : α, EmitsFrom lo parents (fun s => f s a)) :
    ∀ l : List α, EmitsFrom lo parents (fun s => l.foldl f s) := by
  intro l
  induction l with
  | nil => exact emitsFrom_id lo parents
  | cons a l ih =>
    have := emitsFrom_comp lo parents (fun s => f s a) (fun s => l.foldl f s) (hf a) ih
    intro s hs
    obtain ⟨h1, Δ, h2, h3, h4, h5⟩ := this s hs
    exact ⟨h1, Δ, h2, h3, h4, h5⟩

theorem emitsFrom_push_mentionParent (lo : Nat) (parents : List Nat) (ev : TEvent)
    (hids : ∀ i ∈ evIds ev, i ∈ parents)
    (hsafe : ∀ p ∈ parents, ev ≠ TEvent.callback p ∧ ∀ q, ev ≠ TEvent.attach q p)
    (hc : ∀ i, ev ≠ TEvent.create i "programme") :
    EmitsFrom lo parents (push ev) := by
  intro s _
  refine ⟨le_refl _, [ev], rfl, ?_, ?_, ?_⟩
  · intro e he i hi
    simp only [List.mem_singleton] at he
    subst he
    exact Or.inr (hids i hi)
  · intro e he p hp
    simp only [List.mem_singleton] at he
    subst he
    exact hsafe p hp
  · intro e he i
    simp only [List.mem_singleton] at he
    subst he
    exact hc i

theorem setAttrOnly_append {e : Nat} {a b : List TEvent}
    (ha : setAttrOnly e a) (hb : setAttrOnly e b) : setAttrOnly e (a ++ b) := by
  intro ev hev
  rcases List.mem_append.mp hev with h | h
  · exact ha ev h
  · exact hb ev h

theorem emitsFrom_pushAll (lo e : Nat) (evs : List TEvent) (h : setAttrOnly e evs) :
    EmitsFrom lo [e] (pushAll evs) := by
  intro s _
  refine ⟨le_refl _, evs, rfl, ?_, ?_, ?_⟩
  · intro ev hev i hi
    obtain ⟨nm, v, rfl⟩ := h ev hev
    simp only [evIds, List.mem_singleton] at hi
    subst hi
    simp
  · intro ev hev p hp
    obtain ⟨nm, v, rfl⟩ := h ev hev
    simp
  · intro ev hev i
    obtain ⟨nm, v, rfl⟩ := h ev hev
    simp

theorem setAttrOnly_optStr (e : Nat) (nm : String) (o : Option String) :
    setAttrOnly e (match o with
      | some v => [TEvent.setAttr e nm v]
      | none => []) := by
  cases o with
  | none => intro ev hev; cases hev
  | some v =>
    intro ev hev
    simp only [List.mem_singleton] at hev
    exact ⟨nm, v, hev⟩

theorem setAttrOnly_optNatStr (e : Nat) (nm : String) (f : Nat → String) (o : Option Nat) :
    setAttrOnly e (match o with
      | some v => [TEvent.setAttr e nm (f v)]
      | none => []) := by
  cases o with
  | none => intro ev hev; cases hev
  | some v =>
    intro ev hev
    simp only [List.mem_singleton] at hev
    exact ⟨nm, f v, hev⟩

theorem setAttrOnly_optIntStr (e : Nat) (nm : String) (f : Int → String) (o : Option Int) :
    setAttrOnly e (match o with
      | some v => [TEvent.setAttr e nm (f v)]
      | none => []) := by
  cases o with
  | none => intro ev hev; cases hev
  | some v =>
    intro ev hev
    simp only [List.mem_singleton] at hev
    exact ⟨nm, f v, hev⟩

theorem setAttrOnly_cond (e : Nat) (nm v : String) (c : Bool) :
    setAttrOnly e (if c then [TEvent.setAttr e nm v] else []) := by
  cases c with
  | false => intro ev hev; cases hev
  | true =>
    intro ev hev
    simp only [if_true, List.mem_singleton] at hev
    exact ⟨nm, v, hev⟩

theorem setAttrOnly_single (e : Nat) (nm v : String) :
    setAttrOnly e [TEvent.setAttr e nm v] := by
  intro ev hev
  simp only [List.mem_singleton] at hev
  exact ⟨nm, v, hev⟩

theorem membershipAttrEvents_setAttrOnly (e : Nat) (m : Membership) :
    setAttrOnly e (membershipAttrEvents e m) := by
  unfold membershipAttrEvents
  exact setAttrOnly_append
    (setAttrOnly_append (setAttrOnly_single e _ _) (setAttrOnly_optStr e _ m.crid))
    (setAttrOnly_optNatStr e _ _ m.index)

theorem linkAttrEvents_setAttrOnly (e : Nat) (l : Link) :
    setAttrOnly e (linkAttrEvents e l) := by
  unfold linkAttrEvents
  exact setAttrOnly_append
    (setAttrOnly_append
      (setAttrOnly_append (setAttrOnly_single e _ _) (setAttrOnly_optStr e _ l.description))
      (setAttrOnly_optStr e _ l.mimetype))
    (setAttrOnly_optIntStr e _ _ l.expiry)

theorem eventAttrEvents_setAttrOnly (e : Nat) (ev : ProgrammeEvent) :
    setAttrOnly e (eventAttrEvents e ev) := by
  unfold eventAttrEvents
  exact setAttrOnly_append
    (setAttrOnly_append
      (setAttrOnly_append
        (setAttrOnly_append (setAttrOnly_optNatStr e _ _ ev.shortcrid)
          (setAttrOnly_optStr e _ ev.crid))
        (setAttrOnly_optNatStr e _ _ ev.version))
      (setAttrOnly_cond e _ _ ev.recommendation))
    (setAttrOnly_optNatStr e _ _ ev.bitrate)

theorem progAttrEvents_setAttrOnly (e : Nat) (p : Programme) :
    setAttrOnly e (progAttrEvents e p) := by
  unfold progAttrEvents
  refine setAttrOnly_append
    (setAttrOnly_append
      (setAttrOnly_append
        (setAttrOnly_append
          (setAttrOnly_append (setAttrOnly_single e _ _) (setAttrOnly_optStr e _ p.crid))
          (setAttrOnly_optNatStr e _ _ p.version))
        (setAttrOnly_cond e _ _ p.recommendation))
      ?_)
    (setAttrOnly_optNatStr e _ _ p.bitrate)
  cases honair : p.onair with
  | false => simpa [honair] using setAttrOnly_single e "broadcast" "off-air"
  | true => intro ev hev; simp [honair] at hev

theorem buildsFresh_core (b : TState → Nat × TState) (tag : String)
    (htag : tag ≠ "programme") (g : Nat → TState → TState)
    (hb : ∀ s, b s = ((newElem tag s).1, g (newElem tag s).1 (newElem tag s).2))
    (hg : ∀ e, EmitsFrom (e + 1) [e] (g e)) :
    BuildsFresh b := by
  intro s
  rw [hb s]
  obtain ⟨h1, Δ, h2, h3, h4, h5⟩ := hg (newElem tag s).1 (newElem tag s).2 (by
    show (newElem tag s).1 + 1 ≤ (newElem tag s).2.nextId
    simp [newElem])
  have hid : (newElem tag s).1 = s.nextId := rfl
  have hnext : (newElem tag s).2.nextId = s.nextId + 1 := rfl
  have htrace : (newElem tag s).2.trace = s.trace ++ [TEvent.create s.nextId tag] := rfl
  refine ⟨hid, ?_, TEvent.create s.nextId tag :: Δ, ?_, ?_, ?_, ?_⟩
  · show s.nextId < (g (newElem tag s).1 (newElem tag s).2).nextId
    omega
  · show (g (newElem tag s).1 (newElem tag s).2).trace = _
    rw [h2, htrace, List.append_assoc]
    rfl
  · intro ev hev i hi
    rcases List.mem_cons.mp hev with rfl | hev
    · simp only [evIds, List.mem_singleton] at hi
      subst hi
      constructor
      · exact le_refl _
      · show s.nextId < (g (newElem tag s).1 (newElem tag s).2).nextId
        omega
    · rcases h3 ev hev i hi with ⟨hge, hlt⟩ | hp
      · exact ⟨by omega, hlt⟩
      · simp only [hid, List.mem_singleton] at hp
        subst hp
        constructor
        · exact le_refl _
        · show s.nextId < (g (newElem tag s).1 (newElem tag s).2).nextId
          omega
  · intro ev hev
    rcases List.mem_cons.mp hev with rfl | hev
    · simp
    · have := h4 ev hev s.nextId (by simp [hid])
      exact this
  · intro ev hev i
    rcases List.mem_cons.mp hev with rfl | hev
    · simp [htag]
    · exact h5 ev hev i

theorem build_name_tr_fresh (n : NameText) : BuildsFresh (build_name_tr n) := by
  cases n with
  | short t =>
    exact buildsFresh_core _ "epg:shortName" (by decide)
      (fun e s => push (TEvent.attachText e t) s) (fun s => rfl)
      (fun e => emitsFrom_push_mentionParent _ _ _
        (by intro i hi; simpa [evIds] using hi)
        (by intro p hp; simp)
        (by intro i; simp))
  | medium t =>
    exact buildsFresh_core _ "epg:mediumName" (by decide)
      (fun e s => push (TEvent.attachText e t) s) (fun s => rfl)
      (fun e => emitsFrom_push_mentionParent _ _ _
        (by intro i hi; simpa [evIds] using hi)
        (by intro p hp; simp)
        (by intro i; simp))
  | long t =>
    exact buildsFresh_core _ "epg:longName" (by decide)
      (fun e s => push (TEvent.attachText e t) s) (fun s => rfl)
      (fun e => emitsFrom_push_mentionParent _ _ _
        (by intro i hi; simpa [evIds] using hi)
        (by intro p hp; simp)
        (by intro i; simp))

theorem build_membership_tr_fresh (m : Membership) : BuildsFresh (build_membership_tr m) :=
  buildsFresh_core _ "memberOf" (by decide)
    (fun e s => pushAll (membershipAttrEvents e m) s) (fun s => rfl)
    (fun e => emitsFrom_pushAll (e + 1) e _ (membershipAttrEvents_setAttrOnly e m))

theorem build_link_tr_fresh (l : Link) : BuildsFresh (build_link_tr l) :=
  buildsFresh_core _ "link" (by decide)
    (fun e s => pushAll (linkAttrEvents e l) s) (fun s => rfl)
    (fun e => emitsFrom_pushAll (e + 1) e _ (linkAttrEvents_setAttrOnly e l))

theorem locTimeStep_emits (le : Nat) (t : BTime) :
    EmitsFrom (le + 1) [le] (fun s => locTimeStep le s t) := by
  cases t with
  | abs t =>
    intro s hs
    beta_reduce
    have hn : (locTimeStep le s (BTime.abs t)).nextId = s.nextId + 1 := by
      simp [locTimeStep, newElem, push]
    refine ⟨by omega, [TEvent.create s.nextId "epg:time", TEvent.attach le s.nextId,
      TEvent.setAttr s.nextId "time" (isoInstant t.billed_time),
      TEvent.setAttr s.nextId "duration" (get_iso_period (timedeltaOfSeconds t.billed_duration)),
      TEvent.callback s.nextId], ?_, ?_, ?_, ?_⟩
    · show (locTimeStep le s (BTime.abs t)).trace = _
      simp [locTimeStep, newElem, push]
    · intro ev hev i hi
      rw [hn]
      simp only [List.mem_cons, List.not_mem_nil, or_false] at hev
      rcases hev with rfl | rfl | rfl | rfl | rfl <;>
        simp only [evIds, List.mem_cons, List.mem_singleton, List.not_mem_nil, or_false] at hi
      · subst hi; left; omega
      · rcases hi with rfl | rfl
        · right; simp
        · left; omega
      · subst hi; left; omega
      · subst hi; left; omega
      · subst hi; left; omega
    · intro ev hev p hp
      simp only [List.mem_singleton] at hp
      subst hp
      simp only [List.mem_cons, List.not_mem_nil, or_false] at hev
      rcases hev with rfl | rfl | rfl | rfl | rfl <;>
        exact ⟨by simp <;> omega, fun q => by simp <;> omega⟩
    · intro ev hev i
      simp only [List.mem_cons, List.not_mem_nil, or_false] at hev
      rcases hev with rfl | rfl | rfl | rfl | rfl <;> simp
  | rel r =>
    intro s hs
    beta_reduce
    have hn : (locTimeStep le s (BTime.rel r)).nextId = s.nextId + 1 := by
      simp [locTimeStep, newElem, push]
    refine ⟨by omega, [TEvent.create s.nextId "epg:relativeTime", TEvent.attach le s.nextId,
      TEvent.setAttr s.nextId "time" (get_iso_period (timedeltaOfSeconds r.billed_offset)),
      TEvent.setAttr s.nextId "duration" (get_iso_period (timedeltaOfSeconds r.billed_duration)),
      TEvent.callback s.nextId], ?_, ?_, ?_, ?_⟩
    · show (locTimeStep le s (BTime.rel r)).trace = _
      simp [locTimeStep, newElem, push]
    · intro ev hev i hi
      rw [hn]
      simp only [List.mem_cons, List.not_mem_nil, or_false] at hev
      rcases hev with rfl | rfl | rfl | rfl | rfl <;>
        simp only [evIds, List.mem_cons, List.mem_singleton, List.not_mem_nil, or_false] at hi
      · subst hi; left; omega
      · rcases hi with rfl | rfl
        · right; simp
        · left; omega
      · subst hi; left; omega
      · subst hi; left; omega
      · subst hi; left; omega
    · intro ev hev p hp
      simp only [List.mem_singleton] at hp
      subst hp
      simp only [List.mem_cons, List.not_mem_nil, or_false] at hev
      rcases hev with rfl | rfl | rfl | rfl | rfl <;>
        exact ⟨by simp <;> omega, fun q => by simp <;> omega⟩
    · intro ev hev i
      simp only [List.mem_cons, List.not_mem_nil, or_false] at hev
      rcases hev with rfl | rfl | rfl | rfl | rfl <;> simp

theorem locBearerStep_emits (le : Nat) (b : LocBearer) :
    EmitsFrom (le + 1) [le] (fun s => locBearerStep le s b) := by
  intro s hs
  beta_reduce
  have hn : (locBearerStep le s b).nextId = s.nextId + 1 := by
    simp [locBearerStep, newElem, push]
  refine ⟨by omega, [TEvent.create s.nextId "epg:bearer", TEvent.attach le s.nextId,
    TEvent.setAttr s.nextId "id" (locBearerStr b),
    TEvent.callback s.nextId], ?_, ?_, ?_, ?_⟩
  · show (locBearerStep le s b).trace = _
    simp [locBearerStep, newElem, push]
  · intro ev hev i hi
    rw [hn]
    simp only [List.mem_cons, List.not_mem_nil, or_false] at hev
    rcases hev with rfl | rfl | rfl | rfl <;>
      simp only [evIds, List.mem_cons, List.mem_singleton, List.not_mem_nil, or_false] at hi
    · subst hi; left; omega
    · rcases hi with rfl | rfl
      · right; simp
      · left; omega
    · subst hi; left; omega
    · subst hi; left; omega
  · intro ev hev p hp
    simp only [List.mem_singleton] at hp
    subst hp
    simp only [List.mem_cons, List.not_mem_nil, or_false] at hev
    rcases hev with rfl | rfl | rfl | rfl <;>
      exact ⟨by simp <;> omega, fun q => by simp <;> omega⟩
  · intro ev hev i
    simp only [List.mem_cons, List.not_mem_nil, or_false] at hev
    rcases hev with rfl | rfl | rfl | rfl <;> simp

theorem build_location_tr_fresh (location : Location) :
    BuildsFresh (build_location_tr location) := by
  refine buildsFresh_core _ "epg:location" (by decide)
    (fun e s => location.bearers.foldl (locBearerStep e)
      (location.times.foldl (locTimeStep e) s)) (fun s => rfl) ?_
  intro e
  exact emitsFrom_comp (e + 1) [e]
    (fun s => location.times.foldl (locTimeStep e) s)
    (fun s => location.bearers.foldl (locBearerStep e) s)
    (emitsFrom_foldl (e + 1) [e] (locTimeStep e) (locTimeStep_emits e) location.times)
    (emitsFrom_foldl (e + 1) [e] (locBearerStep e) (locBearerStep_emits e) location.bearers)

theorem build_genre_tr_fresh (genre : Genre) : BuildsFresh (build_genre_tr genre) := by
  rcases genre with ⟨href, name⟩
  cases name with
  | none =>
    exact buildsFresh_core _ "epg:genre" (by decide)
      (fun e s => push (TEvent.setAttr e "href" href) s) (fun s => rfl)
      (fun e => emitsFrom_push_mentionParent _ _ _
        (by intro i hi; simpa [evIds] using hi)
        (by intro p hp; simp)
        (by intro i; simp))
  | some n =>
    refine buildsFresh_core _ "epg:genre" (by decide)
      (fun e s =>
        let s1 := push (TEvent.setAttr e "href" href) s
        let p := newElem "epg:name" s1
        push (TEvent.attachCData p.1 n) (push (TEvent.attach e p.1) p.2)) (fun s => rfl) ?_
    intro e
    refine emitsFrom_comp (e + 1) [e]
      (fun s => push (TEvent.setAttr e "href" href) s)
      (fun s =>
        let p := newElem "epg:name" s
        push (TEvent.attachCData p.1 n) (push (TEvent.attach e p.1) p.2))
      (emitsFrom_push_mentionParent _ _ _
        (by intro i hi; simpa [evIds] using hi)
        (by intro p hp; simp)
        (by intro i; simp)) ?_
    intro s hs
    beta_reduce
    refine ⟨by simp [newElem, push], [TEvent.create s.nextId "epg:name",
      TEvent.attach e s.nextId, TEvent.attachCData s.nextId n], ?_, ?_, ?_, ?_⟩
    · show (push (TEvent.attachCData (newElem "epg:name" s).1 n)
        (push (TEvent.attach e (newElem "epg:name" s).1) (newElem "epg:name" s).2)).trace = _
      simp [newElem, push]
    · intro ev hev i hi
      have hn : (push (TEvent.attachCData (newElem "epg:name" s).1 n)
          (push (TEvent.attach e (newElem "epg:name" s).1) (newElem "epg:name" s).2)).nextId
          = s.nextId + 1 := by simp [newElem, push]
      rw [hn]
      simp only [List.mem_cons, List.not_mem_nil, or_false] at hev
      rcases hev with rfl | rfl | rfl <;>
        simp only [evIds, List.mem_cons, List.mem_singleton, List.not_mem_nil, or_false] at hi
      · subst hi; left; omega
      · rcases hi with rfl | rfl
        · right; simp
        · left; omega
      · subst hi; left; omega
    · intro ev hev p hp
      simp only [List.mem_singleton] at hp
      subst hp
      simp only [List.mem_cons, List.not_mem_nil, or_false] at hev
      rcases hev with rfl | rfl | rfl <;>
        exact ⟨by simp <;> omega, fun q => by simp <;> omega⟩
    · intro ev hev i
      simp only [List.mem_cons, List.not_mem_nil, or_false] at hev
      rcases hev with rfl | rfl | rfl <;> simp

theorem mediaTag_ne_programme (ns : Option String) :
    (match ns with
     | some n => n ++ ":"
     | none => "") ++ "mediaDescription" ≠ "programme" := by
  intro h
  have hlen := congrArg String.length h
  have l1 : (":" : String).length = 1 := rfl
  have l2 : ("mediaDescription" : String).length = 16 := rfl
  have l3 : ("programme" : String).length = 9 := rfl
  have l0 : ("" : String).length = 0 := rfl
  cases ns with
  | none =>
    have hlen' : (("" : String) ++ "mediaDescription").length = ("programme" : String).length := hlen
    rw [String.length_append, l0, l2, l3] at hlen'
    omega
  | some v =>
    have hlen' : ((v ++ ":") ++ "mediaDescription").length = ("programme" : String).length := hlen
    rw [String.length_append, String.length_append, l1, l2, l3] at hlen'
    omega

theorem build_mediagroup_tr_fresh (media : Media) (ns : Option String) :
    BuildsFresh (fun s => build_mediagroup_tr media ns s) := by
  cases media with
  | shortDesc t =>
    refine buildsFresh_core _ ((match ns with
      | some n => n ++ ":"
      | none => "") ++ "mediaDescription") (mediaTag_ne_programme ns)
      (fun e s =>
        let p := newElem "epg:shortDescription" s
        push (TEvent.attachCData p.1 t) (push (TEvent.attach e p.1) p.2))
      (fun s => by cases ns <;> rfl) ?_
    intro e
    intro s hs
    beta_reduce
    refine ⟨by simp [newElem, push], [TEvent.create s.nextId "epg:shortDescription",
      TEvent.attach e s.nextId, TEvent.attachCData s.nextId t], ?_, ?_, ?_, ?_⟩
    · show (push (TEvent.attachCData (newElem "epg:shortDescription" s).1 t)
        (push (TEvent.attach e (newElem "epg:shortDescription" s).1)
          (newElem "epg:shortDescription" s).2)).trace = _
      simp [newElem, push]
    · intro ev hev i hi
      have hn : (push (TEvent.attachCData (newElem "epg:shortDescription" s).1 t)
          (push (TEvent.attach e (newElem "epg:shortDescription" s).1)
            (newElem "epg:shortDescription" s).2)).nextId = s.nextId + 1 := by
        simp [newElem, push]
      rw [hn]
      simp only [List.mem_cons, List.not_mem_nil, or_false] at hev
      rcases hev with rfl | rfl | rfl <;>
        simp only [evIds, List.mem_cons, List.mem_singleton, List.not_mem_nil, or_false] at hi
      · subst hi; left; omega
      · rcases hi with rfl | rfl
        · right; simp
        · left; omega
      · subst hi; left; omega
    · intro ev hev p hp
      simp only [List.mem_singleton] at hp
      subst hp
      simp only [List.mem_cons, List.not_mem_nil, or_false] at hev
      rcases hev with rfl | rfl | rfl <;>
        exact ⟨by simp <;> omega, fun q => by simp <;> omega⟩
    · intro ev hev i
      simp only [List.mem_cons, List.not_mem_nil, or_false] at hev
      rcases hev with rfl | rfl | rfl <;> simp
  | longDesc t =>
    refine buildsFresh_core _ ((match ns with
      | some n => n ++ ":"
      | none => "") ++ "mediaDescription") (mediaTag_ne_programme ns)
      (fun e s =>
        let p := newElem "epg:longDescription" s
        push (TEvent.attachCData p.1 t) (push (TEvent.attach e p.1) p.2))
      (fun s => by cases ns <;> rfl) ?_
    intro e
    intro s hs
    beta_reduce
    refine ⟨by simp [newElem, push], [TEvent.create s.nextId "epg:longDescription",
      TEvent.attach e s.nextId, TEvent.attachCData s.nextId t], ?_, ?_, ?_, ?_⟩
    · show (push (TEvent.attachCData (newElem "epg:longDescription" s).1 t)
        (push (TEvent.attach e (newElem "epg:longDescription" s).1)
          (newElem "epg:longDescription" s).2)).trace = _
      simp [newElem, push]
    · intro ev hev i hi
      have hn : (push (TEvent.attachCData (newElem "epg:longDescription" s).1 t)
          (push (TEvent.attach e (newElem "epg:longDescription" s).1)
            (newElem "epg:longDescription" s).2)).nextId = s.nextId + 1 := by
        simp [newElem, push]
      rw [hn]
      simp only [List.mem_cons, List.not_mem_nil, or_false] at hev
      rcases hev with rfl | rfl | rfl <;>
        simp only [evIds, List.mem_cons, List.mem_singleton, List.not_mem_nil, or_false] at hi
      · subst hi; left; omega
      · rcases hi with rfl | rfl
        · right; simp
        · left; omega
      · subst hi; left; omega
    · intro ev hev p hp
      simp only [List.mem_singleton] at hp
      subst hp
      simp only [List.mem_cons, List.not_mem_nil, or_false] at hev
      rcases hev with rfl | rfl | rfl <;>
        exact ⟨by simp <;> omega, fun q => by simp <;> omega⟩
    · intro ev hev i
      simp only [List.mem_cons, List.not_mem_nil, or_false] at hev
      rcases hev with rfl | rfl | rfl <;> simp
  | multi m =>
    refine buildsFresh_core _ ((match ns with
      | some n => n ++ ":"
      | none => "") ++ "mediaDescription") (mediaTag_ne_programme ns)
      (fun e s =>
        let p := newElem "epg:multimedia" s
        pushAll (multimediaAttrEvents p.1 m) (push (TEvent.attach e p.1) p.2))
      (fun s => by cases ns <;> rfl) ?_
    intro e
    intro s hs
    beta_reduce
    have hattr : setAttrOnly s.nextId (multimediaAttrEvents s.nextId m) := by
      unfold multimediaAttrEvents
      refine setAttrOnly_append ?_ ?_
      · intro ev hev
        simp only [List.mem_cons, List.mem_singleton, List.not_mem_nil, or_false] at hev
        rcases hev with rfl | rfl
        · exact ⟨_, _, rfl⟩
        · exact ⟨_, _, rfl⟩
      · by_cases hty : m.type = LOGO_UNRESTRICTED
        · simp only [hty, if_pos]
          intro ev hev
          simp only [List.mem_cons, List.mem_singleton, List.not_mem_nil, or_false] at hev
          rcases hev with rfl | rfl
          · exact ⟨_, _, rfl⟩
          · exact ⟨_, _, rfl⟩
        · simp only [hty, if_neg, if_false]
          intro ev hev
          cases hev
    have hn : (pushAll (multimediaAttrEvents (newElem "epg:multimedia" s).1 m)
        (push (TEvent.attach e (newElem "epg:multimedia" s).1)
          (newElem "epg:multimedia" s).2)).nextId = s.nextId + 1 := rfl
    have htr : (pushAll (multimediaAttrEvents (newElem "epg:multimedia" s).1 m)
        (push (TEvent.attach e (newElem "epg:multimedia" s).1)
          (newElem "epg:multimedia" s).2)).trace =
        s.trace ++ (TEvent.create s.nextId "epg:multimedia" :: TEvent.attach e s.nextId ::
          multimediaAttrEvents s.nextId m) := by
      simp [newElem, push, pushAll]
    refine ⟨by rw [hn]; omega, TEvent.create s.nextId "epg:multimedia" ::
      TEvent.attach e s.nextId :: multimediaAttrEvents s.nextId m, htr, ?_, ?_, ?_⟩
    · intro ev hev i hi
      rw [hn]
      rcases List.mem_cons.mp hev with rfl | hev
      · simp only [evIds, List.mem_singleton] at hi
        subst hi
        left
        omega
      rcases List.mem_cons.mp hev with rfl | hev
      · simp only [evIds, List.mem_cons, List.mem_singleton, List.not_mem_nil, or_false] at hi
        rcases hi with rfl | rfl
        · right; simp
        · left; omega
      · obtain ⟨nm, v, rfl⟩ := hattr ev hev
        simp only [evIds, List.mem_singleton] at hi
        subst hi
        left
        omega
    · intro ev hev p hp
      simp only [List.mem_singleton] at hp
      subst hp
      rcases List.mem_cons.mp hev with rfl | hev
      · exact ⟨by simp, fun q => by simp⟩
      rcases List.mem_cons.mp hev with rfl | hev
      · exact ⟨by simp, fun q => by simp <;> omega⟩
      · obtain ⟨nm, v, rfl⟩ := hattr ev hev
        exact ⟨by simp, fun q => by simp⟩
    · intro ev hev i
      rcases List.mem_cons.mp hev with rfl | hev
      · simp
      rcases List.mem_cons.mp hev with rfl | hev
      · simp
      · obtain ⟨nm, v, rfl⟩ := hattr ev hev
        simp

theorem emitsFrom_foldl_mem {α : Type} (lo : Nat) (parents : List Nat)
    (f : TState → α → TState) (l : List α)
    (hf : ∀ a ∈ l, EmitsFrom lo parents (fun s => f s a)) :
    EmitsFrom lo parents (fun s => l.foldl f s) := by
  induction l with
  | nil => exact emitsFrom_id lo parents
  | cons a l ih =>
    have hcomp := emitsFrom_comp lo parents (fun s => f s a) (fun s => l.foldl f s)
      (hf a (by simp)) (ih (fun a ha => hf a (by simp [ha])))
    intro s hs
    obtain ⟨h1, Δ, h2, h3, h4, h5⟩ := hcomp s hs
    exact ⟨h1, Δ, h2, h3, h4, h5⟩

theorem attachChildStep_emits (pe : Nat) (b : TState → Nat × TState) (hb : BuildsFresh b) :
    EmitsFrom (pe + 1) [pe] (fun s => attachChildStep pe b s) := by
  intro s hs
  beta_reduce
  obtain ⟨h1, h2, Δ, h3, h4, h5, h6⟩ := hb s
  have htr : (attachChildStep pe b s).trace = (b s).2.trace ++ [TEvent.attach pe (b s).1] := rfl
  have hni : (attachChildStep pe b s).nextId = (b s).2.nextId := rfl
  refine ⟨by omega, Δ ++ [TEvent.attach pe (b s).1], ?_, ?_, ?_, ?_⟩
  · rw [htr, h3, List.append_assoc]
  · intro ev hev i hi
    rcases List.mem_append.mp hev with h | h
    · have := h4 ev h i hi
      rw [hni]
      exact Or.inl ⟨this.1, this.2⟩
    · simp only [List.mem_singleton] at h
      subst h
      simp only [evIds, List.mem_cons, List.mem_singleton, List.not_mem_nil, or_false] at hi
      rcases hi with rfl | rfl
      · exact Or.inr (by simp)
      · rw [hni, h1]
        exact Or.inl ⟨le_refl _, h2⟩
  · intro ev hev p hp
    simp only [List.mem_singleton] at hp
    subst hp
    rcases List.mem_append.mp hev with h | h
    · constructor
      · intro hcb
        subst hcb
        have := h4 _ h p (by simp [evIds])
        omega
      · intro q hat
        subst hat
        have := h4 _ h p (by simp [evIds])
        omega
    · simp only [List.mem_singleton] at h
      subst h
      constructor
      · simp
      · intro q hat
        rw [TEvent.attach.injEq] at hat
        rw [h1] at hat
        omega
  · intro ev hev i
    rcases List.mem_append.mp hev with h | h
    · exact h6 ev h i
    · simp only [List.mem_singleton] at h
      subst h
      simp

theorem eventChildBuilders_fresh (event : ProgrammeEvent) :
    ∀ b ∈ eventChildBuilders event, BuildsFresh b := by
  intro b hb
  simp only [eventChildBuilders, List.mem_append, List.mem_map] at hb
  rcases hb with ((((⟨n, _, rfl⟩ | ⟨l, _, rfl⟩) | ⟨m, _, rfl⟩) | ⟨g, _, rfl⟩) |
    ⟨mm, _, rfl⟩) | ⟨lk, _, rfl⟩
  · exact build_name_tr_fresh n
  · exact build_location_tr_fresh l
  · exact build_mediagroup_tr_fresh m (some "epg")
  · exact build_genre_tr_fresh g
  · exact build_membership_tr_fresh mm
  · exact build_link_tr_fresh lk

theorem build_programme_event_tr_fresh (event : ProgrammeEvent) :
    BuildsFresh (build_programme_event_tr event) := by
  refine buildsFresh_core _ "epg:programmeEvent" (by decide)
    (fun e s => (eventChildBuilders event).foldl (fun s b => attachChildStep e b s)
      (pushAll (eventAttrEvents e event) s)) (fun s => rfl) ?_
  intro e
  exact emitsFrom_comp (e + 1) [e]
    (fun s => pushAll (eventAttrEvents e event) s)
    (fun s => (eventChildBuilders event).foldl (fun s b => attachChildStep e b s) s)
    (emitsFrom_pushAll (e + 1) e _ (eventAttrEvents_setAttrOnly e event))
    (emitsFrom_foldl_mem (e + 1) [e] _ (eventChildBuilders event)
      (fun b hb => attachChildStep_emits e b (eventChildBuilders_fresh event b hb)))

theorem progChildBuilders_fresh (programme : Programme) :
    ∀ b ∈ progChildBuilders programme, BuildsFresh b := by
  intro b hb
  simp only [progChildBuilders, List.mem_append, List.mem_map] at hb
  rcases hb with (((((⟨n, _, rfl⟩ | ⟨l, _, rfl⟩) | ⟨m, _, rfl⟩) | ⟨g, _, rfl⟩) |
    ⟨mm, _, rfl⟩) | ⟨lk, _, rfl⟩) | ⟨ev, _, rfl⟩
  · exact build_name_tr_fresh n
  · exact build_location_tr_fresh l
  · exact build_mediagroup_tr_fresh m (some "epg")
  · exact build_genre_tr_fresh g
  · exact build_membership_tr_fresh mm
  · exact build_link_tr_fresh lk
  · exact build_programme_event_tr_fresh ev

theorem childrenFold_spec (pe : Nat) (bs : List (TState → Nat × TState))
    (hbs : ∀ b ∈ bs, BuildsFresh b) :
    ∀ s : TState, pe < s.nextId →
      s.nextId ≤ (bs.foldl (fun s b => childStep pe b s) s).nextId
      ∧ ∃ Δ, (bs.foldl (fun s b => childStep pe b s) s).trace = s.trace ++ Δ
        ∧ (∀ ev ∈ Δ, ∀ i ∈ evIds ev,
            (s.nextId ≤ i ∧ i < (bs.foldl (fun s b => childStep pe b s) s).nextId) ∨ i = pe)
        ∧ (∀ ev ∈ Δ, ev ≠ TEvent.callback pe ∧ ∀ q, ev ≠ TEvent.attach q pe)
        ∧ (∀ ev ∈ Δ, ∀ i, ev ≠ TEvent.create i "programme")
        ∧ (∀ c, TEvent.attach pe c ∈ Δ →
            ∃ t1 t2, Δ = t1 ++ TEvent.callback c :: TEvent.attach pe c :: t2
              ∧ s.nextId ≤ c ∧ c < (bs.foldl (fun s b => childStep pe b s) s).nextId
              ∧ (∀ ev ∈ t1, ev ≠ TEvent.callback c ∧ ∀ q, ev ≠ TEvent.attach q c)
              ∧ (∀ ev ∈ t2, ∀ i ∈ evIds ev, i ≠ c)) := by
  induction bs with
  | nil =>
    intro s hpe
    refine ⟨le_refl _, [], by simp, by simp, by simp, by simp, ?_⟩
    intro c hc
    cases hc
  | cons b bs ih =>
    intro s hpe
    have hb := hbs b (List.mem_cons_self b bs)
    obtain ⟨h1, h2, Δb, h3, h4, h5, h6⟩ := hb s
    have htr1 : (childStep pe b s).trace =
        (b s).2.trace ++ [TEvent.callback (b s).1, TEvent.attach pe (b s).1] := by
      unfold childStep
      rcases hbs' : b s with ⟨c0, sb⟩
      simp [push]
    have hni1 : (childStep pe b s).nextId = (b s).2.nextId := by
      unfold childStep
      rcases hbs' : b s with ⟨c0, sb⟩
      simp [push]
    have hfold : ((b :: bs).foldl (fun s b => childStep pe b s) s) =
        (bs.foldl (fun s b => childStep pe b s) (childStep pe b s)) := by
      rw [List.foldl_cons]
    obtain ⟨ihn, Δr, ihtr, ihids, ihsafe, ihcr, ihattach⟩ :=
      ih (fun b hb => hbs b (List.mem_cons_of_mem _ hb)) (childStep pe b s)
        (by rw [hni1]; omega)
    rw [hfold]
    have hΔstep : (childStep pe b s).trace = s.trace ++
        (Δb ++ [TEvent.callback (b s).1, TEvent.attach pe (b s).1]) := by
      rw [htr1, h3, List.append_assoc]
    have hnfinal : (childStep pe b s).nextId ≤
        (bs.foldl (fun s b => childStep pe b s) (childStep pe b s)).nextId := ihn
    refine ⟨by omega, (Δb ++ [TEvent.callback (b s).1, TEvent.attach pe (b s).1]) ++ Δr,
      ?_, ?_, ?_, ?_, ?_⟩
    · rw [ihtr, hΔstep, List.append_assoc]
    · intro ev hev i hi
      rcases List.mem_append.mp hev with hev | hev
      · rcases List.mem_append.mp hev with hev | hev
        · have := h4 ev hev i hi
          left
          constructor
          · omega
          · have : i < (b s).2.nextId := this.2
            omega
        · simp only [List.mem_cons, List.mem_singleton, List.not_mem_nil, or_false] at hev
          rcases hev with rfl | rfl
          · simp only [evIds, List.mem_singleton] at hi
            subst hi
            rw [h1]
            left
            constructor
            · exact le_refl _
            · omega
          · simp only [evIds, List.mem_cons, List.mem_singleton, List.not_mem_nil,
              or_false] at hi
            rcases hi with rfl | rfl
            · right; rfl
            · rw [h1]
              left
              exact ⟨le_refl _, by omega⟩
      · rcases ihids ev hev i hi with ⟨hg, hl⟩ | hp
        · left
          constructor
          · rw [hni1] at hg
            omega
          · exact hl
        · right; exact hp
    · intro ev hev
      rcases List.mem_append.mp hev with hev | hev
      · rcases List.mem_append.mp hev with hev | hev
        · constructor
          · intro hcb
            subst hcb
            have := h4 _ hev pe (by simp [evIds])
            omega
          · intro q hat
            subst hat
            have := h4 _ hev pe (by simp [evIds])
            omega
        · simp only [List.mem_cons, List.mem_singleton, List.not_mem_nil, or_false] at hev
          rcases hev with rfl | rfl
          · constructor
            · intro hcb
              rw [TEvent.callback.injEq] at hcb
              rw [h1] at hcb
              omega
            · intro q hat
              cases hat
          · constructor
            · intro hcb
              cases hcb
            · intro q hat
              rw [TEvent.attach.injEq] at hat
              rw [h1] at hat
              omega
      · exact ihsafe ev hev
    · intro ev hev i
      rcases List.mem_append.mp hev with hev | hev
      · rcases List.mem_append.mp hev with hev | hev
        · exact h6 ev hev i
        · simp only [List.mem_cons, List.mem_singleton, List.not_mem_nil, or_false] at hev
          rcases hev with rfl | rfl
          · simp
          · simp
      · exact ihcr ev hev i
    · intro c hc
      rcases List.mem_append.mp hc with hc | hc
      · rcases List.mem_append.mp hc with hc | hc
        · exfalso
          have := h4 _ hc pe (by simp [evIds])
          omega
        · simp only [List.mem_cons, List.mem_singleton, List.not_mem_nil, or_false] at hc
          rcases hc with hc | hc
          · cases hc
          · rw [TEvent.attach.injEq] at hc
            obtain ⟨_, rfl⟩ := hc
            refine ⟨Δb, Δr, ?_, ?_, ?_, ?_, ?_⟩
            · simp
            · rw [h1]
            · rw [h1]; omega
            · intro ev hev
              rw [h1]
              exact h5 ev hev
            · intro ev hev i hi
              rcases ihids ev hev i hi with ⟨hg, hl⟩ | hp
              · rw [hni1] at hg
                intro hic
                subst hic
                have := h1
                omega
              · subst hp
                intro hic
                omega
      · obtain ⟨t1, t2, hsplit, hge, hlt, ht1, ht2⟩ := ihattach c hc
        refine ⟨(Δb ++ [TEvent.callback (b s).1, TEvent.attach pe (b s).1]) ++ t1, t2,
          ?_, ?_, ?_, ?_, ?_⟩
        · rw [hsplit]
          simp
        · rw [hni1] at hge
          omega
        · exact hlt
        · intro ev hev
          rcases List.mem_append.mp hev with hev | hev
          · rcases List.mem_append.mp hev with hev | hev
            · constructor
              · intro hcb
                subst hcb
                have := h4 _ hev c (by simp [evIds])
                rw [hni1] at hge
                omega
              · intro q hat
                subst hat
                have := h4 _ hev c (by simp [evIds])
                rw [hni1] at hge
                omega
            · simp only [List.mem_cons, List.mem_singleton, List.not_mem_nil, or_false] at hev
              rw [hni1] at hge
              rcases hev with rfl | rfl
              · constructor
                · intro hcb
                  rw [TEvent.callback.injEq] at hcb
                  rw [h1] at hcb
                  omega
                · intro q hat
                  cases hat
              · constructor
                · intro hcb
                  cases hcb
                · intro q hat
                  rw [TEvent.attach.injEq] at hat
                  rw [h1] at hat
                  omega
          · exact ht1 ev hev
        · exact ht2

theorem serviceScopeStep_emits (sce : Nat) (svc : ContentId) :
    EmitsFrom (sce + 1) [sce] (fun s =>
      let p := newElem "serviceScope" s
      push (TEvent.callback p.1)
        (push (TEvent.attach sce p.1) (push (TEvent.setAttr p.1 "id" svc.str) p.2))) := by
  intro s hs
  beta_reduce
  refine ⟨by simp [newElem, push], [TEvent.create s.nextId "serviceScope",
    TEvent.setAttr s.nextId "id" svc.str, TEvent.attach sce s.nextId,
    TEvent.callback s.nextId], ?_, ?_, ?_, ?_⟩
  · show (push (TEvent.callback (newElem "serviceScope" s).1)
      (push (TEvent.attach sce (newElem "serviceScope" s).1)
        (push (TEvent.setAttr (newElem "serviceScope" s).1 "id" svc.str)
          (newElem "serviceScope" s).2))).trace = _
    simp [newElem, push]
  · intro ev hev i hi
    have hn : (push (TEvent.callback (newElem "serviceScope" s).1)
        (push (TEvent.attach sce (newElem "serviceScope" s).1)
          (push (TEvent.setAttr (newElem "serviceScope" s).1 "id" svc.str)
            (newElem "serviceScope" s).2))).nextId = s.nextId + 1 := rfl
    rw [hn]
    simp only [List.mem_cons, List.not_mem_nil, or_false] at hev
    rcases hev with rfl | rfl | rfl | rfl <;>
      simp only [evIds, List.mem_cons, List.mem_singleton, List.not_mem_nil, or_false] at hi
    · subst hi; left; omega
    · subst hi; left; omega
    · rcases hi with rfl | rfl
      · right; simp
      · left; omega
    · subst hi; left; omega
  · intro ev hev p hp
    simp only [List.mem_singleton] at hp
    subst hp
    simp only [List.mem_cons, List.not_mem_nil, or_false] at hev
    rcases hev with rfl | rfl | rfl | rfl <;>
      exact ⟨by simp <;> omega, fun q => by simp <;> omega⟩
  · intro ev hev i
    simp only [List.mem_cons, List.not_mem_nil, or_false] at hev
    rcases hev with rfl | rfl | rfl | rfl <;> simp

theorem scopeStep_emits (se : Nat) (sc : Option Scope) :
    EmitsFrom (se + 1) [se] (fun s => scopeStep se sc s) := by
  cases sc with
  | none => exact emitsFrom_id _ _
  | some scope =>
    intro s hs
    beta_reduce
    obtain ⟨hf1, Δf, hf2, hf3, hf4, hf5⟩ :=
      emitsFrom_foldl_mem (s.nextId + 1) [s.nextId]
        (fun st svc =>
          let p := newElem "serviceScope" st
          push (TEvent.callback p.1)
            (push (TEvent.attach s.nextId p.1) (push (TEvent.setAttr p.1 "id" svc.str) p.2)))
        scope.services
        (fun svc _ => serviceScopeStep_emits s.nextId svc)
        (⟨s.nextId + 1, ((s.trace ++ [TEvent.create s.nextId "scope"])
          ++ [TEvent.setAttr s.nextId "startTime" (isoInstant scope.start)])
          ++ [TEvent.setAttr s.nextId "stopTime" (isoInstant scope.stop)]⟩ : TState)
        (le_refl _)
    set F : TState := scope.services.foldl (fun st svc =>
        let p := newElem "serviceScope" st
        push (TEvent.callback p.1)
          (push (TEvent.attach s.nextId p.1) (push (TEvent.setAttr p.1 "id" svc.str) p.2)))
      (⟨s.nextId + 1, ((s.trace ++ [TEvent.create s.nextId "scope"])
        ++ [TEvent.setAttr s.nextId "startTime" (isoInstant scope.start)])
        ++ [TEvent.setAttr s.nextId "stopTime" (isoInstant scope.stop)]⟩ : TState) with hF
    have hf1' : s.nextId + 1 ≤ F.nextId := by rw [hF]; exact hf1
    have hf2' : F.trace = (((s.trace ++ [TEvent.create s.nextId "scope"])
        ++ [TEvent.setAttr s.nextId "startTime" (isoInstant scope.start)])
        ++ [TEvent.setAttr s.nextId "stopTime" (isoInstant scope.stop)]) ++ Δf := by
      rw [hF]; exact hf2
    have hf3' : ∀ ev ∈ Δf, ∀ i ∈ evIds ev,
        (s.nextId + 1 ≤ i ∧ i < F.nextId) ∨ i ∈ [s.nextId] := by
      rw [hF]; exact hf3
    have e1 : scopeStep se (some scope) s =
        push (TEvent.attach se s.nextId) (push (TEvent.callback s.nextId) F) := by
      rw [hF]
      rfl
    rw [e1]
    have hnx : (push (TEvent.attach se s.nextId)
        (push (TEvent.callback s.nextId) F)).nextId = F.nextId := rfl
    have htx : (push (TEvent.attach se s.nextId)
        (push (TEvent.callback s.nextId) F)).trace =
        (F.trace ++ [TEvent.callback s.nextId]) ++ [TEvent.attach se s.nextId] := rfl
    refine ⟨by rw [hnx]; omega, [TEvent.create s.nextId "scope",
      TEvent.setAttr s.nextId "startTime" (isoInstant scope.start),
      TEvent.setAttr s.nextId "stopTime" (isoInstant scope.stop)] ++ Δf
      ++ [TEvent.callback s.nextId, TEvent.attach se s.nextId], ?_, ?_, ?_, ?_⟩
    · rw [htx, hf2']
      simp
    · intro ev hev i hi
      rw [hnx]
      rcases List.mem_append.mp hev with hev | hev
      · rcases List.mem_append.mp hev with hev | hev
        · simp only [List.mem_cons, List.not_mem_nil, or_false] at hev
          rcases hev with rfl | rfl | rfl <;>
            simp only [evIds, List.mem_singleton] at hi <;> subst hi <;> left <;>
            exact ⟨le_refl _, by omega⟩
        · rcases hf3' ev hev i hi with ⟨hg, hl⟩ | hp
          · left
            exact ⟨by omega, hl⟩
          · simp only [List.mem_singleton] at hp
            subst hp
            left
            exact ⟨le_refl _, by omega⟩
      · simp only [List.mem_cons, List.not_mem_nil, or_false] at hev
        rcases hev with rfl | rfl <;>
          simp only [evIds, List.mem_cons, List.mem_singleton, List.not_mem_nil,
            or_false] at hi
        · subst hi
          left
          exact ⟨le_refl _, by omega⟩
        · rcases hi with rfl | rfl
          · right; simp
          · left
            exact ⟨le_refl _, by omega⟩
    · intro ev hev p hp
      simp only [List.mem_singleton] at hp
      subst hp
      rcases List.mem_append.mp hev with hev | hev
      · rcases List.mem_append.mp hev with hev | hev
        · simp only [List.mem_cons, List.not_mem_nil, or_false] at hev
          rcases hev with rfl | rfl | rfl <;> exact ⟨by simp, fun q => by simp⟩
        · constructor
          · intro hcb
            subst hcb
            rcases hf3' _ hev p (by simp [evIds]) with ⟨hg, _⟩ | hp'
            · omega
            · simp only [List.mem_singleton] at hp'
              omega
          · intro q hat
            subst hat
            rcases hf3' _ hev p (by simp [evIds]) with ⟨hg, _⟩ | hp'
            · omega
            · simp only [List.mem_singleton] at hp'
              omega
      · simp only [List.mem_cons, List.not_mem_nil, or_false] at hev
        rcases hev with rfl | rfl
        · exact ⟨by simp <;> omega, fun q => by simp⟩
        · exact ⟨by simp, fun q => by simp <;> omega⟩
    · intro ev hev i
      rcases List.mem_append.mp hev with hev | hev
      · rcases List.mem_append.mp hev with hev | hev
        · simp only [List.mem_cons, List.not_mem_nil, or_false] at hev
          rcases hev with rfl | rfl | rfl <;> simp
        · exact hf5 ev hev i
      · simp only [List.mem_cons, List.not_mem_nil, or_false] at hev
        rcases hev with rfl | rfl <;> simp
theorem progStep_spec (se : Nat) (p : Programme) :
    ∀ s : TState, se < s.nextId →
      s.nextId < (progStep se p s).nextId
      ∧ ∃ Δ, (progStep se p s).trace = s.trace ++ Δ
        ∧ (∀ ev ∈ Δ, ∀ i ∈ evIds ev,
            (s.nextId ≤ i ∧ i < (progStep se p s).nextId) ∨ i = se)
        ∧ (∀ pe, TEvent.create pe "programme" ∈ Δ → pe = s.nextId)
        ∧ (∀ c, TEvent.attach s.nextId c ∈ Δ →
            ∃ t1 t2, Δ = t1 ++ TEvent.callback c :: TEvent.attach s.nextId c :: t2
              ∧ s.nextId < c ∧ c < (progStep se p s).nextId
              ∧ (∀ ev ∈ t1, ev ≠ TEvent.callback c ∧ ∀ q, ev ≠ TEvent.attach q c)
              ∧ (∀ ev ∈ t2, ∀ i ∈ evIds ev, i ≠ c)) := by
  intro s hse
  obtain ⟨hc1, Δc, hc2, hc3, hc4, hc5, hc6⟩ :=
    childrenFold_spec s.nextId (progChildBuilders p) (progChildBuilders_fresh p)
      (⟨s.nextId + 1, (s.trace ++ [TEvent.create s.nextId "programme"])
        ++ progAttrEvents s.nextId p⟩ : TState) (by simp)
  set F : TState := (progChildBuilders p).foldl (fun st b => childStep s.nextId b st)
    (⟨s.nextId + 1, (s.trace ++ [TEvent.create s.nextId "programme"])
      ++ progAttrEvents s.nextId p⟩ : TState) with hF
  have hc1' : s.nextId + 1 ≤ F.nextId := by rw [hF]; exact hc1
  have hc2' : F.trace = ((s.trace ++ [TEvent.create s.nextId "programme"])
      ++ progAttrEvents s.nextId p) ++ Δc := by rw [hF]; exact hc2
  have hc3' : ∀ ev ∈ Δc, ∀ i ∈ evIds ev,
      (s.nextId + 1 ≤ i ∧ i < F.nextId) ∨ i = s.nextId := by rw [hF]; exact hc3
  have hc6' : ∀ c, TEvent.attach s.nextId c ∈ Δc →
      ∃ t1 t2, Δc = t1 ++ TEvent.callback c :: TEvent.attach s.nextId c :: t2
        ∧ s.nextId + 1 ≤ c ∧ c < F.nextId
        ∧ (∀ ev ∈ t1, ev ≠ TEvent.callback c ∧ ∀ q, ev ≠ TEvent.attach q c)
        ∧ (∀ ev ∈ t2, ∀ i ∈ evIds ev, i ≠ c) := by rw [hF]; exact hc6
  have e1 : progStep se p s =
      push (TEvent.callback s.nextId) (push (TEvent.attach se s.nextId) F) := by
    rw [hF]
    rfl
  rw [e1]
  have hnx : (push (TEvent.callback s.nextId)
      (push (TEvent.attach se s.nextId) F)).nextId = F.nextId := rfl
  have htx : (push (TEvent.callback s.nextId)
      (push (TEvent.attach se s.nextId) F)).trace =
      (F.trace ++ [TEvent.attach se s.nextId]) ++ [TEvent.callback s.nextId] := rfl
  refine ⟨by rw [hnx]; omega,
    (TEvent.create s.nextId "programme" :: (progAttrEvents s.nextId p ++ Δc))
      ++ [TEvent.attach se s.nextId, TEvent.callback s.nextId], ?_, ?_, ?_, ?_⟩
  · rw [htx, hc2']
    simp
  · intro ev hev i hi
    rw [hnx]
    rcases List.mem_append.mp hev with hev | hev
    · rcases List.mem_cons.mp hev with rfl | hev
      · simp only [evIds, List.mem_singleton] at hi
        subst hi
        left
        exact ⟨le_refl _, by omega⟩
      · rcases List.mem_append.mp hev with hev | hev
        · obtain ⟨nm, v, rfl⟩ := progAttrEvents_setAttrOnly s.nextId p ev hev
          simp only [evIds, List.mem_singleton] at hi
          subst hi
          left
          exact ⟨le_refl _, by omega⟩
        · rcases hc3' ev hev i hi with ⟨hg, hl⟩ | hp
          · left
            exact ⟨by omega, hl⟩
          · subst hp
            left
            exact ⟨le_refl _, by omega⟩
    · simp only [List.mem_cons, List.not_mem_nil, or_false] at hev
      rcases hev with rfl | rfl
      · simp only [evIds, List.mem_cons, List.mem_singleton, List.not_mem_nil,
          or_false] at hi
        rcases hi with rfl | rfl
        · right; rfl
        · left
          exact ⟨le_refl _, by omega⟩
      · simp only [evIds, List.mem_singleton] at hi
        subst hi
        left
        exact ⟨le_refl _, by omega⟩
  · intro pe hpe
    rcases List.mem_append.mp hpe with hpe | hpe
    · rcases List.mem_cons.mp hpe with heq | hpe
      · rw [TEvent.create.injEq] at heq
        exact heq.1
      · rcases List.mem_append.mp hpe with hpe | hpe
        · obtain ⟨nm, v, heq⟩ := progAttrEvents_setAttrOnly s.nextId p _ hpe
          cases heq
        · exact absurd rfl (hc5 _ hpe pe)
    · simp only [List.mem_cons, List.not_mem_nil, or_false] at hpe
      rcases hpe with heq | heq <;> cases heq
  · intro c hc
    rcases List.mem_append.mp hc with hc | hc
    · rcases List.mem_cons.mp hc with heq | hc
      · cases heq
      · rcases List.mem_append.mp hc with hc | hc
        · obtain ⟨nm, v, heq⟩ := progAttrEvents_setAttrOnly s.nextId p _ hc
          cases heq
        · obtain ⟨t1c, t2c, hsp, hclo, hchi, ht1, ht2⟩ := hc6' c hc
          refine ⟨TEvent.create s.nextId "programme" ::
              (progAttrEvents s.nextId p ++ t1c),
            t2c ++ [TEvent.attach se s.nextId, TEvent.callback s.nextId],
            ?_, by omega, by rw [hnx]; omega, ?_, ?_⟩
          · rw [hsp]
            simp
          · intro ev hev
            rcases List.mem_cons.mp hev with rfl | hev
            · exact ⟨by simp, fun q => by simp⟩
            · rcases List.mem_append.mp hev with hev | hev
              · obtain ⟨nm, v, rfl⟩ := progAttrEvents_setAttrOnly s.nextId p ev hev
                exact ⟨by simp, fun q => by simp⟩
              · exact ht1 ev hev
          · intro ev hev i hi
            rcases List.mem_append.mp hev with hev | hev
            · exact ht2 ev hev i hi
            · simp only [List.mem_cons, List.not_mem_nil, or_false] at hev
              rcases hev with rfl | rfl
              · simp only [evIds, List.mem_cons, List.mem_singleton,
                  List.not_mem_nil, or_false] at hi
                rcases hi with rfl | rfl <;> omega
              · simp only [evIds, List.mem_singleton] at hi
                subst hi
                omega
    · simp only [List.mem_cons, List.not_mem_nil, or_false] at hc
      rcases hc with heq | heq
      · rw [TEvent.attach.injEq] at heq
        omega
      · cases heq

theorem progsFold_spec (se : Nat) (ps : List Programme) :
    ∀ s : TState, se < s.nextId →
      s.nextId ≤ (ps.foldl (fun s p => progStep se p s) s).nextId
      ∧ ∃ Δ, (ps.foldl (fun s p => progStep se p s) s).trace = s.trace ++ Δ
        ∧ (∀ ev ∈ Δ, ∀ i ∈ evIds ev,
            (s.nextId ≤ i ∧ i < (ps.foldl (fun s p => progStep se p s) s).nextId) ∨ i = se)
        ∧ (∀ pe, TEvent.create pe "programme" ∈ Δ →
            s.nextId ≤ pe ∧ pe < (ps.foldl (fun s p => progStep se p s) s).nextId)
        ∧ (∀ pe c, TEvent.create pe "programme" ∈ Δ → TEvent.attach pe c ∈ Δ →
            ∃ t1 t2, Δ = t1 ++ TEvent.callback c :: TEvent.attach pe c :: t2
              ∧ pe < c ∧ c < (ps.foldl (fun s p => progStep se p s) s).nextId
              ∧ (∀ ev ∈ t1, ev ≠ TEvent.callback c ∧ ∀ q, ev ≠ TEvent.attach q c)
              ∧ (∀ ev ∈ t2, ∀ i ∈ evIds ev, i ≠ c)) := by
  induction ps with
  | nil =>
    intro s hse
    refine ⟨le_refl _, [], by simp, by simp, by simp, ?_⟩
    intro pe c hcr hat
    cases hcr
  | cons p ps ih =>
    intro s hse
    obtain ⟨h1, Δp, hp2, hp3, hp4, hp5⟩ := progStep_spec se p s hse
    have hfold : ((p :: ps).foldl (fun s p => progStep se p s) s) =
        (ps.foldl (fun s p => progStep se p s) (progStep se p s)) := by
      rw [List.foldl_cons]
    obtain ⟨ihn, Δr, ih2, ih3, ih4, ih5⟩ := ih (progStep se p s) (by omega)
    rw [hfold]
    refine ⟨by omega, Δp ++ Δr, ?_, ?_, ?_, ?_⟩
    · rw [ih2, hp2, List.append_assoc]
    · intro ev hev i hi
      rcases List.mem_append.mp hev with hev | hev
      · rcases hp3 ev hev i hi with ⟨hg, hl⟩ | hp
        · left; exact ⟨hg, by omega⟩
        · right; exact hp
      · rcases ih3 ev hev i hi with ⟨hg, hl⟩ | hp
        · left; exact ⟨by omega, hl⟩
        · right; exact hp
    · intro pe hpe
      rcases List.mem_append.mp hpe with hpe | hpe
      · have hpeq := hp4 pe hpe
        subst hpeq
        exact ⟨le_refl _, by omega⟩
      · have hrng := ih4 pe hpe
        exact ⟨by omega, hrng.2⟩
    · intro pe c hcr hat
      rcases List.mem_append.mp hcr with hcr | hcr
      · have hpeq := hp4 pe hcr
        subst hpeq
        rcases List.mem_append.mp hat with hat | hat
        · obtain ⟨t1, t2, hsp, hlo, hhi, ht1, ht2⟩ := hp5 c hat
          refine ⟨t1, t2 ++ Δr, ?_, hlo, by omega, ht1, ?_⟩
          · rw [hsp]
            simp
          · intro ev hev i hi
            rcases List.mem_append.mp hev with hev | hev
            · exact ht2 ev hev i hi
            · rcases ih3 ev hev i hi with ⟨hg, hl⟩ | hp
              · omega
              · omega
        · exfalso
          rcases ih3 _ hat s.nextId (by simp [evIds]) with ⟨hg, hl⟩ | hp
          · omega
          · omega
      · have hrng := ih4 pe hcr
        rcases List.mem_append.mp hat with hat | hat
        · exfalso
          rcases hp3 _ hat pe (by simp [evIds]) with ⟨hg, hl⟩ | hp
          · omega
          · omega
        · obtain ⟨t1, t2, hsp, hlo, hhi, ht1, ht2⟩ := ih5 pe c hcr hat
          refine ⟨Δp ++ t1, t2, ?_, hlo, hhi, ?_, ht2⟩
          · rw [hsp]
            simp
          · intro ev hev
            rcases List.mem_append.mp hev with hev | hev
            · constructor
              · intro hcb
                subst hcb
                rcases hp3 _ hev c (by simp [evIds]) with ⟨hg, hl⟩ | hp
                · omega
                · omega
              · intro q hatq
                subst hatq
                rcases hp3 _ hev c (by simp [evIds]) with ⟨hg, hl⟩ | hp
                · omega
                · omega
            · exact ht1 ev hev

theorem marshallTail_spec (B : TState) (sc : Option Scope) (ps : List Programme)
    (hBn : B.nextId = 2)
    (hBids : ∀ ev ∈ B.trace, ∀ i ∈ evIds ev, i < 2)
    (hBcr : ∀ ev ∈ B.trace, ∀ i, ev ≠ TEvent.create i "programme")
    (pe c : Nat)
    (hcreate : TEvent.create pe "programme" ∈
      (push (TEvent.callback 0)
        (ps.foldl (fun s p => progStep 1 p s) (scopeStep 1 sc B))).trace)
    (hattach : TEvent.attach pe c ∈
      (push (TEvent.callback 0)
        (ps.foldl (fun s p => progStep 1 p s) (scopeStep 1 sc B))).trace) :
    ∃ t1 t2,
      (push (TEvent.callback 0)
        (ps.foldl (fun s p => progStep 1 p s) (scopeStep 1 sc B))).trace
        = t1 ++ TEvent.callback c :: TEvent.attach pe c :: t2
      ∧ (∀ ev ∈ t1, ev ≠ TEvent.callback c ∧ ∀ q, ev ≠ TEvent.attach q c)
      ∧ (∀ ev ∈ t2, ∀ i ∈ evIds ev, i ≠ c) := by
  obtain ⟨hs1, ΔS, hs2, hs3, hs4, hs5⟩ := scopeStep_emits 1 sc B (by omega)
  have hs1' : B.nextId ≤ (scopeStep 1 sc B).nextId := hs1
  have hs2' : (scopeStep 1 sc B).trace = B.trace ++ ΔS := hs2
  have hs3' : ∀ ev ∈ ΔS, ∀ i ∈ evIds ev,
      (B.nextId ≤ i ∧ i < (scopeStep 1 sc B).nextId) ∨ i ∈ [1] := hs3
  have hs5' : ∀ ev ∈ ΔS, ∀ i, ev ≠ TEvent.create i "programme" := hs5
  obtain ⟨hf1, Δf, hf2, hf3, hf4, hf5⟩ :=
    progsFold_spec 1 ps (scopeStep 1 sc B) (by omega)
  have htx : (push (TEvent.callback 0)
      (ps.foldl (fun s p => progStep 1 p s) (scopeStep 1 sc B))).trace
      = ((B.trace ++ ΔS) ++ Δf) ++ [TEvent.callback 0] := by
    show (ps.foldl (fun s p => progStep 1 p s) (scopeStep 1 sc B)).trace
        ++ [TEvent.callback 0] = _
    rw [hf2, hs2']
  rw [htx] at hcreate hattach
  have hcr' : TEvent.create pe "programme" ∈ Δf := by
    rcases List.mem_append.mp hcreate with h | h
    · rcases List.mem_append.mp h with h | h
      · rcases List.mem_append.mp h with h | h
        · exact absurd rfl (hBcr _ h pe)
        · exact absurd rfl (hs5' _ h pe)
      · exact h
    · simp at h
  have hrng := hf4 pe hcr'
  have hat' : TEvent.attach pe c ∈ Δf := by
    rcases List.mem_append.mp hattach with h | h
    · rcases List.mem_append.mp h with h | h
      · rcases List.mem_append.mp h with h | h
        · exfalso
          have := hBids _ h pe (by simp [evIds])
          omega
        · exfalso
          rcases hs3' _ h pe (by simp [evIds]) with ⟨hg, hl⟩ | hp
          · omega
          · simp only [List.mem_singleton] at hp
            omega
      · exact h
    · simp at h
  obtain ⟨t1f, t2f, hsp, hlo, hhi, ht1, ht2⟩ := hf5 pe c hcr' hat'
  refine ⟨(B.trace ++ ΔS) ++ t1f, t2f ++ [TEvent.callback 0], ?_, ?_, ?_⟩
  · rw [htx, hsp]
    simp
  · intro ev hev
    rcases List.mem_append.mp hev with hev | hev
    · rcases List.mem_append.mp hev with hev | hev
      · constructor
        · intro hcb
          subst hcb
          have := hBids _ hev c (by simp [evIds])
          omega
        · intro q hatq
          subst hatq
          have := hBids _ hev c (by simp [evIds])
          omega
      · constructor
        · intro hcb
          subst hcb
          rcases hs3' _ hev c (by simp [evIds]) with ⟨hg, hl⟩ | hp
          · omega
          · simp only [List.mem_singleton] at hp
            omega
        · intro q hatq
          subst hatq
          rcases hs3' _ hev c (by simp [evIds]) with ⟨hg, hl⟩ | hp
          · omega
          · simp only [List.mem_singleton] at hp
            omega
    · exact ht1 ev hev
  · intro ev hev i hi
    rcases List.mem_append.mp hev with hev | hev
    · exact ht2 ev hev i hi
    · simp only [List.mem_cons, List.not_mem_nil, or_false] at hev
      subst hev
      simp only [evIds, List.mem_singleton] at hi
      omega

/-- C9 (amended): the claimed listener discipline holds for the children
of `programme` elements.  Whenever the trace of `marshall_epg`
creates an element `pe` tagged `programme` and attaches a child `c` to it,
the trace splits as `t1 ++ [callback c, attach pe c] ++ t2` where `t1`
contains no earlier callback for `c` and no earlier attachment of `c`
(so the callback comes immediately before the attach, with `c` fully
populated beforehand), and `t2` never mentions `c` again. -/
theorem C9_listener_callback_amended (epg : Epg) (pe c : Nat)
    (hcreate : TEvent.create pe "programme" ∈ (marshall_epg_tr epg).trace)
    (hattach : TEvent.attach pe c ∈ (marshall_epg_tr epg).trace) :
    ∃ t1 t2, (marshall_epg_tr epg).trace
        = t1 ++ TEvent.callback c :: TEvent.attach pe c :: t2
      ∧ (∀ ev ∈ t1, ev ≠ TEvent.callback c ∧ ∀ q, ev ≠ TEvent.attach q c)
      ∧ (∀ ev ∈ t2, ∀ i ∈ evIds ev, i ≠ c) := by
  obtain ⟨ty, created, version, orig, progs⟩ := epg
  rcases orig with _ | o
  · have e0 : marshall_epg_tr ⟨ty, ⟨created, version, none, progs⟩⟩ =
        push (TEvent.callback 0)
          (progs.foldl (fun s p => progStep 1 p s)
            (scopeStep 1 (Schedule.mk created version none progs).get_scope
              (⟨2, [TEvent.create 0 "epg", TEvent.attachDoc 0,
                TEvent.setAttr 0 "xmlns" SCHEDULE_NS,
                TEvent.setAttr 0 "xmlns:epg" TYPES_NS,
                TEvent.setAttr 0 "xmlns:xsi" XSI_NS,
                TEvent.setAttr 0 "xsi:schemaLocation"
                  (SCHEDULE_NS ++ " epgSchedule_14.xsd"),
                TEvent.setAttr 0 "xml:lang" "en",
                TEvent.setAttr 0 "system" ty,
                TEvent.create 1 "schedule", TEvent.attach 0 1,
                TEvent.setAttr 1 "version" (toString version),
                TEvent.setAttr 1 "creationTime" (isoInstant created)]⟩ : TState))) := rfl
    rw [e0] at hcreate hattach ⊢
    refine marshallTail_spec _ _ _ rfl ?_ ?_ pe c hcreate hattach
    · intro ev hev
      simp only [List.mem_cons, List.not_mem_nil, or_false] at hev
      rcases hev with rfl | rfl | rfl | rfl | rfl | rfl | rfl | rfl | rfl | rfl | rfl | rfl <;>
        (intro i hi
         simp only [evIds, List.mem_cons, List.mem_singleton, List.not_mem_nil,
           or_false] at hi
         omega)
    · intro ev hev
      simp only [List.mem_cons, List.not_mem_nil, or_false] at hev
      rcases hev with rfl | rfl | rfl | rfl | rfl | rfl | rfl | rfl | rfl | rfl | rfl | rfl <;>
        (intro i
         simp)
  · have e0 : marshall_epg_tr ⟨ty, ⟨created, version, some o, progs⟩⟩ =
        push (TEvent.callback 0)
          (progs.foldl (fun s p => progStep 1 p s)
            (scopeStep 1 (Schedule.mk created version (some o) progs).get_scope
              (⟨2, [TEvent.create 0 "epg", TEvent.attachDoc 0,
                TEvent.setAttr 0 "xmlns" SCHEDULE_NS,
                TEvent.setAttr 0 "xmlns:epg" TYPES_NS,
                TEvent.setAttr 0 "xmlns:xsi" XSI_NS,
                TEvent.setAttr 0 "xsi:schemaLocation"
                  (SCHEDULE_NS ++ " epgSchedule_14.xsd"),
                TEvent.setAttr 0 "xml:lang" "en",
                TEvent.setAttr 0 "system" ty,
                TEvent.create 1 "schedule", TEvent.attach 0 1,
                TEvent.setAttr 1 "version" (toString version),
                TEvent.setAttr 1 "creationTime" (isoInstant created),
                TEvent.setAttr 1 "originator" o]⟩ : TState))) := rfl
    rw [e0] at hcreate hattach ⊢
    refine marshallTail_spec _ _ _ rfl ?_ ?_ pe c hcreate hattach
    · intro ev hev
      simp only [List.mem_cons, List.not_mem_nil, or_false] at hev
      rcases hev with
        rfl | rfl | rfl | rfl | rfl | rfl | rfl | rfl | rfl | rfl | rfl | rfl | rfl <;>
        (intro i hi
         simp only [evIds, List.mem_cons, List.mem_singleton, List.not_mem_nil,
           or_false] at hi
         omega)
    · intro ev hev
      simp only [List.mem_cons, List.not_mem_nil, or_false] at hev
      rcases hev with
        rfl | rfl | rfl | rfl | rfl | rfl | rfl | rfl | rfl | rfl | rfl | rfl | rfl <;>
        (intro i
         simp)

/-- C9 (counterexample to the literal claim): in the marshalling of a
minimal Epg the `schedule` element (id 1) is constructed but its listener
callback never occurs anywhere in the trace, contradicting "every
constructed element receives exactly one callback". -/
theorem C9_listener_callback_counterexample :
    TEvent.create 1 "schedule" ∈
      (marshall_epg_tr ⟨"DAB", ⟨0, 1, none, []⟩⟩).trace
    ∧ TEvent.callback 1 ∉
      (marshall_epg_tr ⟨"DAB", ⟨0, 1, none, []⟩⟩).trace := by
  decide

/-- C9 (witness): the amended theorem applied to a concrete Epg with one
programme (element 2) carrying one short name (element 3): the trace
splits with `callback 3` immediately before `attach 2 3`. -/
theorem C9_listener_callback_amended_witness :
    ∃ t1 t2,
      (marshall_epg_tr ⟨"DAB", ⟨0, 1, none,
        [⟨1, none, none, none, true, false, [NameText.short "x"],
          [], [], [], [], [], [], []⟩]⟩⟩).trace
        = t1 ++ TEvent.callback 3 :: TEvent.attach 2 3 :: t2
      ∧ (∀ ev ∈ t1, ev ≠ TEvent.callback 3 ∧ ∀ q, ev ≠ TEvent.attach q 3)
      ∧ (∀ ev ∈ t2, ∀ i ∈ evIds ev, i ≠ 3) :=
  C9_listener_callback_amended _ 2 3 (by decide) (by decide)

/-- C5 (witness): a schedule whose single programme has only a relative
time, evaluated through the theorem (its `epg` wrapper also shown to emit
no `scope` child). -/
theorem C5_scope_absent_witness :
    (Epg.mk "DAB" (Schedule.mk 0 1 none
      [⟨1, none, some 1, none, true, true, [],
        [⟨[BTime.rel ⟨0, 1800, none, none⟩],
          [LocBearer.cid ⟨0xe1, 0xce15, some 0xc221, some 0, none⟩]⟩],
        [], [], [], [], [], []⟩])).schedule.get_scope = none
    ∧ ∀ c ∈ (build_schedule_tree (Epg.mk "DAB" (Schedule.mk 0 1 none
        [⟨1, none, some 1, none, true, true, [],
          [⟨[BTime.rel ⟨0, 1800, none, none⟩],
            [LocBearer.cid ⟨0xe1, 0xce15, some 0xc221, some 0, none⟩]⟩],
          [], [], [], [], [], []⟩])).schedule).childrenOf, c.tagOf ≠ "scope" :=
  C5_scope_absent _ (by decide)

end DabEpg
